import Mathlib

/-!
Verification of the YTSage telegram bot's download-session orchestrator.

The Python sources (`src/bot/service.py`, `src/bot/handlers.py`,
`src/utils/ytsage_cookies.py`) are shallowly embedded below: pure helpers
become Lean functions, the mutable per-process state (selection store,
attempts log, allow-lists, progress reporter) becomes explicit state
passing, and the file system is modelled as lists of text lines.
Python-specific primitives (`str.strip`, `int(...)`, truthiness, `round`,
`str.lower`, `in` on strings) are given faithful Lean counterparts first.
-/

namespace YTSage

/-! ### Python string/number primitives -/

/-- Whitespace recognised by Python's `str.strip()` (ASCII part). -/
def isPySpace (c : Char) : Bool :=
  c = ' ' || c = '\t' || c = '\n' || c = '\x0d' || c = '\x0b' || c = '\x0c'

/-- `str.strip()` on a character list. -/
def pyStripChars (cs : List Char) : List Char :=
  ((cs.dropWhile isPySpace).reverse.dropWhile isPySpace).reverse

/-- `str.strip()` on a `String`. -/
def pyStrip (s : String) : String :=
  ⟨pyStripChars s.toList⟩

/-- `str.lower()` (ASCII case folding, which covers every marker the bot
matches against). -/
def pyLower (s : String) : String :=
  ⟨s.toList.map Char.toLower⟩

/-- Substring test on character lists. -/
def listContains (needle : List Char) : List Char → Bool
  | [] => needle.isEmpty
  | c :: t => needle.isPrefixOf (c :: t) || listContains needle t

/-- Python's `needle in haystack` on strings. -/
def pyContains (haystack needle : String) : Bool :=
  listContains needle.toList haystack.toList

/-- Python `str.split(sep)` for a one-character separator (no collapsing,
`[[]]` for the empty string, exactly as in Python). -/
def pySplitOn (sep : Char) (cs : List Char) : List (List Char) :=
  cs.foldr
    (fun c acc =>
      if c = sep then [] :: acc
      else
        match acc with
        | a :: as => (c :: a) :: as
        | [] => [[c]])
    [[]]

/-- Truthiness of an optional integer (`None` and `0` are falsy). -/
def pyTruthyInt : Option Int → Bool
  | none => false
  | some v => v ≠ 0

/-- Truthiness of an optional string (`None` and `""` are falsy). -/
def pyTruthyStr : Option String → Bool
  | none => false
  | some s => s ≠ ""

/-- Truthiness of an optional rational (`None`, `0` and `0.0` are falsy). -/
def pyTruthyNum : Option ℚ → Bool
  | none => false
  | some q => q ≠ 0

/-- Python `a or b` for optional numbers (first truthy operand, else `b`). -/
def pyOrNum (a b : Option ℚ) : Option ℚ :=
  if pyTruthyNum a then a else b

/-- Python `a or b or 0` for optional numbers. -/
def pyOrNum0 (a b : Option ℚ) : ℚ :=
  if pyTruthyNum a then a.getD 0 else if pyTruthyNum b then b.getD 0 else 0

/-- Python `int(q)` on a number: truncation toward zero. -/
def pyTrunc (q : ℚ) : Int :=
  if 0 ≤ q then ⌊q⌋ else ⌈q⌉

/-- Python `round(q)`: round half to even. -/
def pyRound (q : ℚ) : Int :=
  let f := ⌊q⌋
  let r := q - (f : ℚ)
  if r < 1/2 then f
  else if (1:ℚ)/2 < r then f + 1
  else if f % 2 = 0 then f else f + 1

/-! ### Python `int(...)` over decimal text

`int()` strips surrounding whitespace, accepts an optional sign, and then
decimal digits in which single underscores may appear between digits. -/

/-- Accumulated decimal value of a digit list. -/
def digitsVal (l : List Char) : Nat :=
  l.foldl (fun a c => 10 * a + (c.toNat - 48)) 0

/-- No two consecutive underscores. -/
def noDoubleUnderscore : List Char → Bool
  | [] => true
  | [_] => true
  | a :: b :: rest => !(a = '_' && b = '_') && noDoubleUnderscore (b :: rest)

/-- Underscores, if any, sit strictly between other characters. -/
def underscoresOk (cs : List Char) : Bool :=
  (cs.head? ≠ some '_') && (cs.getLast? ≠ some '_') && noDoubleUnderscore cs

/-- The digit part of Python `int()`: digits with optional single
underscores between them. -/
def pyIntDigits? (cs : List Char) : Option Nat :=
  if cs ≠ [] && underscoresOk cs && (cs.filter (fun c => c ≠ '_')).all Char.isDigit then
    some (digitsVal (cs.filter (fun c => c ≠ '_')))
  else
    none

/-- Sign handling of Python `int()`. -/
def parseSigned (cs : List Char) : Option Int :=
  if cs.head? = some '-' then (pyIntDigits? cs.tail).map (fun n => -(n : Int))
  else if cs.head? = some '+' then (pyIntDigits? cs.tail).map (fun n => (n : Int))
  else (pyIntDigits? cs).map (fun n => (n : Int))

/-- Python `int(s)` on a string, `none` when a `ValueError` would be raised. -/
def parsePyInt (s : String) : Option Int :=
  parseSigned (pyStripChars s.toList)

/-! ### Decimal printing round-trips through `parsePyInt`

The bot persists principal ids with `f"{id}\n"`; reading them back uses
`int(line.strip())`.  The following infrastructure proves
`parsePyInt (toString i) = some i`. -/

/-- Structural model of the decimal digit expansion used by `Nat.repr`. -/
def natDigits (n : Nat) : List Char :=
  if _h : n < 10 then [Nat.digitChar n]
  else natDigits (n / 10) ++ [Nat.digitChar (n % 10)]
  decreasing_by exact Nat.div_lt_self (by omega) (by omega)

theorem natDigits_small {n : Nat} (h : n < 10) : natDigits n = [Nat.digitChar n] := by
  rw [natDigits]; simp [h]

theorem natDigits_large {n : Nat} (h : ¬ n < 10) :
    natDigits n = natDigits (n / 10) ++ [Nat.digitChar (n % 10)] := by
  rw [natDigits]; simp [h]

theorem toDigitsCore_eq_natDigits :
    ∀ (fuel n : Nat) (acc : List Char), n < fuel →
      Nat.toDigitsCore 10 fuel n acc = natDigits n ++ acc := by
  intro fuel
  induction fuel with
  | zero => intro n acc hlt; exact absurd hlt (Nat.not_lt_zero n)
  | succ f ih =>
    intro n acc h
    simp only [Nat.toDigitsCore]
    by_cases hz : n / 10 = 0
    · have hn : n < 10 := by omega
      rw [natDigits_small hn]
      simp [hz, Nat.mod_eq_of_lt hn]
    · have hn : ¬ n < 10 := by
        intro hlt
        exact hz (Nat.div_eq_of_lt hlt)
      rw [natDigits_large hn]
      have hdiv : n / 10 < f := by
        have h1 : n / 10 < n := Nat.div_lt_self (by omega) (by omega)
        omega
      rw [if_neg hz, ih (n / 10) _ hdiv]
      simp

theorem natRepr_eq_natDigits (n : Nat) : (Nat.repr n).toList = natDigits n := by
  show (Nat.toDigits 10 n).asString.toList = natDigits n
  have h := toDigitsCore_eq_natDigits (n + 1) n [] (Nat.lt_succ_self n)
  simp only [Nat.toDigits, h, List.append_nil]
  rfl

theorem digitChar_isDigit {d : Nat} (h : d < 10) : (Nat.digitChar d).isDigit = true := by
  interval_cases d <;> decide

theorem digitChar_val {d : Nat} (h : d < 10) : (Nat.digitChar d).toNat - 48 = d := by
  interval_cases d <;> decide

theorem natDigits_all_digit (n : Nat) : ∀ c ∈ natDigits n, c.isDigit = true := by
  induction n using Nat.strong_induction_on with
  | _ n ih =>
    by_cases h : n < 10
    · rw [natDigits_small h]
      intro c hc
      simp only [List.mem_singleton] at hc
      subst hc
      exact digitChar_isDigit h
    · rw [natDigits_large h]
      intro c hc
      rcases List.mem_append.mp hc with h1 | h2
      · exact ih (n / 10) (Nat.div_lt_self (by omega) (by omega)) c h1
      · simp only [List.mem_singleton] at h2
        subst h2
        exact digitChar_isDigit (Nat.mod_lt n (by omega))

theorem natDigits_ne_nil (n : Nat) : natDigits n ≠ [] := by
  by_cases h : n < 10
  · rw [natDigits_small h]; simp
  · rw [natDigits_large h]; simp

theorem isDigit_ne_underscore {c : Char} (h : c.isDigit = true) : c ≠ '_' := by
  intro he; subst he; simp [Char.isDigit] at h

theorem isDigit_not_space {c : Char} (h : c.isDigit = true) : isPySpace c = false := by
  cases hb : isPySpace c with
  | false => rfl
  | true =>
    exfalso
    simp only [isPySpace, Bool.or_eq_true, decide_eq_true_eq] at hb
    rcases hb with ((((h1 | h1) | h1) | h1) | h1) | h1 <;>
      (subst h1; exact absurd h (by decide))

theorem digitsVal_append_digit (l : List Char) (c : Char) :
    digitsVal (l ++ [c]) = 10 * digitsVal l + (c.toNat - 48) := by
  simp [digitsVal, List.foldl_append]

theorem digitsVal_natDigits (n : Nat) : digitsVal (natDigits n) = n := by
  induction n using Nat.strong_induction_on with
  | _ n ih =>
    by_cases h : n < 10
    · rw [natDigits_small h]
      simp [digitsVal, digitChar_val h]
    · rw [natDigits_large h, digitsVal_append_digit,
        ih (n / 10) (Nat.div_lt_self (by omega) (by omega)),
        digitChar_val (Nat.mod_lt n (by omega))]
      omega

theorem noDoubleUnderscore_of_no_underscore :
    ∀ (l : List Char), (∀ c ∈ l, c ≠ '_') → noDoubleUnderscore l = true := by
  intro l
  induction l with
  | nil => intro _; rfl
  | cons a rest ih =>
    intro h
    cases rest with
    | nil => rfl
    | cons b rest2 =>
      simp only [noDoubleUnderscore, Bool.and_eq_true, Bool.not_eq_true']
      constructor
      · have : a ≠ '_' := h a (by simp)
        simp [this]
      · exact ih (fun c hc => h c (List.mem_cons_of_mem a hc))

theorem pyIntDigits_natDigits (n : Nat) : pyIntDigits? (natDigits n) = some n := by
  have hnd : ∀ c ∈ natDigits n, c ≠ '_' :=
    fun c hc => isDigit_ne_underscore (natDigits_all_digit n c hc)
  have hfilter : (natDigits n).filter (fun c => c ≠ '_') = natDigits n := by
    rw [List.filter_eq_self]
    intro c hc
    simp [hnd c hc]
  have h1 : natDigits n ≠ [] := natDigits_ne_nil n
  have hh : (natDigits n).head? ≠ some '_' := by
    cases hl : (natDigits n).head? with
    | none => simp
    | some c =>
      have hc : c ∈ natDigits n := List.mem_of_mem_head? (Option.mem_def.mpr hl)
      simp only [ne_eq, Option.some.injEq]
      exact hnd c hc
  have hlast : (natDigits n).getLast? ≠ some '_' := by
    cases hl : (natDigits n).getLast? with
    | none => simp
    | some c =>
      have hc : c ∈ natDigits n := List.mem_of_mem_getLast? (Option.mem_def.mpr hl)
      simp only [ne_eq, Option.some.injEq]
      exact hnd c hc
  have h2 : underscoresOk (natDigits n) = true := by
    unfold underscoresOk
    simp [hh, hlast, noDoubleUnderscore_of_no_underscore _ hnd]
  have h3 : (natDigits n).all Char.isDigit = true := by
    rw [List.all_eq_true]
    intro c hc
    simpa using natDigits_all_digit n c hc
  unfold pyIntDigits?
  rw [hfilter]
  have hcond : (decide (natDigits n ≠ []) && underscoresOk (natDigits n)
      && (natDigits n).all Char.isDigit) = true := by
    rw [h2, h3]
    simp [h1]
  rw [if_pos hcond, digitsVal_natDigits]

theorem pyStripChars_of_no_space {l : List Char} (h : ∀ c ∈ l, isPySpace c = false) :
    pyStripChars l = l := by
  have h1 : l.dropWhile isPySpace = l := by
    cases l with
    | nil => rfl
    | cons a rest => rw [List.dropWhile_cons_of_neg (by simp [h a (by simp)])]
  rw [pyStripChars, h1]
  have h2 : l.reverse.dropWhile isPySpace = l.reverse := by
    cases hr : l.reverse with
    | nil => rfl
    | cons a rest =>
      rw [List.dropWhile_cons_of_neg]
      simp only [Bool.not_eq_true]
      apply h
      have : a ∈ l.reverse := by rw [hr]; simp
      simpa using this
  rw [h2, List.reverse_reverse]

theorem natDigits_no_space (n : Nat) : ∀ c ∈ natDigits n, isPySpace c = false :=
  fun c hc => isDigit_not_space (natDigits_all_digit n c hc)

theorem natDigits_head_digit (n : Nat) :
    ∃ c t, natDigits n = c :: t ∧ c.isDigit = true := by
  cases hl : natDigits n with
  | nil => exact absurd hl (natDigits_ne_nil n)
  | cons c t =>
    exact ⟨c, t, rfl, natDigits_all_digit n c (by rw [hl]; simp)⟩

theorem isDigit_ne_minus {c : Char} (h : c.isDigit = true) : c ≠ '-' := by
  intro he; subst he; simp [Char.isDigit] at h

theorem isDigit_ne_plus {c : Char} (h : c.isDigit = true) : c ≠ '+' := by
  intro he; subst he; simp [Char.isDigit] at h

theorem parseSigned_natDigits (n : Nat) : parseSigned (natDigits n) = some (n : Int) := by
  obtain ⟨c, t, hl, hc⟩ := natDigits_head_digit n
  rw [parseSigned, hl]
  have h1 : (c :: t).head? ≠ some '-' := by simp [isDigit_ne_minus hc]
  have h2 : (c :: t).head? ≠ some '+' := by simp [isDigit_ne_plus hc]
  rw [if_neg h1, if_neg h2, ← hl, pyIntDigits_natDigits]
  rfl

theorem parsePyInt_toString (i : Int) : parsePyInt (toString i) = some i := by
  cases i with
  | ofNat n =>
    show parsePyInt (Nat.repr n) = some (Int.ofNat n)
    rw [parsePyInt, natRepr_eq_natDigits,
      pyStripChars_of_no_space (natDigits_no_space n), parseSigned_natDigits]
    norm_cast
  | negSucc n =>
    show parsePyInt ("-" ++ Nat.repr (n + 1)) = some (Int.negSucc n)
    have hdata : ("-" ++ Nat.repr (n + 1)).toList = '-' :: natDigits (n + 1) := by
      have : ("-" ++ Nat.repr (n + 1)).toList = "-".toList ++ (Nat.repr (n + 1)).toList := by
        simp [String.toList, String.data_append]
      rw [this, natRepr_eq_natDigits]
      rfl
    rw [parsePyInt, hdata]
    have hstrip : pyStripChars ('-' :: natDigits (n + 1)) = '-' :: natDigits (n + 1) := by
      apply pyStripChars_of_no_space
      intro c hc
      rcases List.mem_cons.mp hc with h | h
      · subst h; rfl
      · exact natDigits_no_space (n + 1) c h
    rw [hstrip, parseSigned]
    rw [if_pos (by simp)]
    simp only [List.tail_cons, pyIntDigits_natDigits, Option.map_some]
    rw [Int.negSucc_eq]
    norm_num

/-! ### Credential freshness controller (`src/utils/ytsage_cookies.py`)

A cookie file is a list of text lines (Netscape cookie-jar format).  The
file-system facts the Python code queries (`exists()`, the file age from
`stat().st_mtime`) are passed in explicitly. -/

/-- `_normalize_domain`: strip, drop a `#HttpOnly_` marker, strip leading
dots, lowercase. -/
def normalizeDomain (domain : List Char) : List Char :=
  let d := pyStripChars domain
  let d := if ("#HttpOnly_".toList).isPrefixOf d then d.drop 10 else d
  (d.dropWhile (fun c => c = '.')).map Char.toLower

/-- `_domain_matches`: the normalized domain equals a suffix from the
allow-list or ends with `"." + suffix`. -/
def domainMatches (domain : List Char) (domain_suffixes : List String) : Bool :=
  let normalized := normalizeDomain domain
  domain_suffixes.any (fun suffix =>
    let s := (suffix.toList.dropWhile (fun c => c = '.')).map Char.toLower
    normalized = s || (('.' :: s).isSuffixOf normalized))

/-- A line survives the `_cookie_file_has_valid_entries` pre-filters: not
blank, not a comment, at least 7 tab-separated fields, and (when a filter
is configured) a matching domain. -/
def cookieLineRelevant (domain_suffixes : List String) (line : String) : Bool :=
  let cs := pyStripChars line.toList
  if cs = [] || cs.head? = some '#' then false
  else
    let parts := pySplitOn '\t' cs
    if parts.length < 7 then false
    else !(domain_suffixes ≠ [] && !domainMatches (parts.headD []) domain_suffixes)

/-- The expiry field (5th tab-separated column) of a cookie line, as read
by `int(parts[4])`. -/
def cookieLineExpiry (line : String) : Option Int :=
  parseSigned (pyStripChars ((pySplitOn '\t' (pyStripChars line.toList)).getD 4 []))

/-- An expiry value counts as valid: `0` ("never") or strictly in the
future. -/
def expiryValid (now_ts : Int) (e : Option Int) : Bool :=
  match e with
  | none => false
  | some expiry => expiry = 0 || expiry > now_ts

/-- The scanning loop of `_cookie_file_has_valid_entries`, including its
early `break` on the first valid entry. -/
def cookieScan (domain_suffixes : List String) (now_ts : Int) :
    List String → Bool → Bool × Bool
  | [], has_relevant => (has_relevant, false)
  | line :: rest, has_relevant =>
    if cookieLineRelevant domain_suffixes line then
      if expiryValid now_ts (cookieLineExpiry line) then (true, true)
      else cookieScan domain_suffixes now_ts rest true
    else cookieScan domain_suffixes now_ts rest has_relevant

/-- `_cookie_file_has_valid_entries`: `(has_relevant, has_valid)`. -/
def cookie_file_has_valid_entries (lines : List String) (domain_suffixes : List String)
    (now_ts : Int) : Bool × Bool :=
  cookieScan domain_suffixes now_ts lines false

/-- `is_cookie_file_expired`.  `fileExists` and `ageSeconds` stand for the
`exists()` / `time.time() - stat().st_mtime` queries. -/
def is_cookie_file_expired (fileExists : Bool) (ageSeconds : ℚ) (lines : List String)
    (max_age_seconds : Option ℚ) (domain_suffixes : List String) (now_ts : Int) : Bool :=
  if !fileExists then true
  else if (match max_age_seconds with
           | some m => decide (ageSeconds > m)
           | none => false) then true
  else
    let hv := cookie_file_has_valid_entries lines domain_suffixes now_ts
    if !hv.1 then true else !hv.2

theorem cookieScan_spec (domain_suffixes : List String) (now_ts : Int) :
    ∀ (lines : List String) (has_relevant : Bool),
      cookieScan domain_suffixes now_ts lines has_relevant =
        (has_relevant || lines.any (cookieLineRelevant domain_suffixes),
         lines.any (fun l => cookieLineRelevant domain_suffixes l
            && expiryValid now_ts (cookieLineExpiry l))) := by
  intro lines
  induction lines with
  | nil => intro hr; simp [cookieScan]
  | cons line rest ih =>
    intro hr
    by_cases hrel : cookieLineRelevant domain_suffixes line = true
    · by_cases hval : expiryValid now_ts (cookieLineExpiry line) = true
      · simp [cookieScan, hrel, hval]
      · simp only [Bool.not_eq_true] at hval
        simp [cookieScan, hrel, hval, ih]
    · simp only [Bool.not_eq_true] at hrel
      simp [cookieScan, hrel, ih]

/-- Max-age precondition: no max age configured, or the file young enough. -/
def maxAgeOk (maxAge : Option ℚ) (age : ℚ) : Prop :=
  maxAge = none ∨ ∃ m, maxAge = some m ∧ age ≤ m

theorem expired_of_no_valid {age : ℚ} {lines doms : List String} {maxAge : Option ℚ}
    {now : Int} (hmax : maxAgeOk maxAge age)
    (hnv : ∀ l ∈ lines, cookieLineRelevant doms l = true →
      expiryValid now (cookieLineExpiry l) = false) :
    is_cookie_file_expired true age lines maxAge doms now = true := by
  have hany : lines.any (fun l => cookieLineRelevant doms l
      && expiryValid now (cookieLineExpiry l)) = false := by
    rw [List.any_eq_false]
    intro x hx
    by_cases hr : cookieLineRelevant doms x = true
    · simp [hr, hnv x hx hr]
    · simp only [Bool.not_eq_true] at hr
      simp [hr]
  unfold is_cookie_file_expired cookie_file_has_valid_entries
  rw [cookieScan_spec]
  rcases hmax with h | ⟨m, hm, hle⟩ <;>
    [skip; (subst hm; have hgt : ¬ (age > m) := not_lt.mpr hle)] <;>
  · first
    | (subst h
       by_cases hrel : lines.any (cookieLineRelevant doms) = true <;> simp [hrel, hany])
    | (by_cases hrel : lines.any (cookieLineRelevant doms) = true <;> simp [hrel, hany, hgt])

theorem not_expired_of_valid {age : ℚ} {lines doms : List String} {maxAge : Option ℚ}
    {now : Int} {l : String} (hmax : maxAgeOk maxAge age)
    (hmem : l ∈ lines) (hrel : cookieLineRelevant doms l = true)
    (hval : expiryValid now (cookieLineExpiry l) = true) :
    is_cookie_file_expired true age lines maxAge doms now = false := by
  have hany : lines.any (fun x => cookieLineRelevant doms x
      && expiryValid now (cookieLineExpiry x)) = true :=
    List.any_eq_true.mpr ⟨l, hmem, by simp [hrel, hval]⟩
  have hanyrel : lines.any (cookieLineRelevant doms) = true :=
    List.any_eq_true.mpr ⟨l, hmem, hrel⟩
  unfold is_cookie_file_expired cookie_file_has_valid_entries
  rw [cookieScan_spec]
  rcases hmax with h | ⟨m, hm, hle⟩
  · subst h
    simp [hany, hanyrel]
  · subst hm
    have hgt : ¬ (age > m) := not_lt.mpr hle
    simp [hany, hanyrel, hgt]

/-- **C4** — Credential expiry predicate.  For an existing credential file
(whose age does not trip the configured max-age check): (1) if the only
domain-matching entry has an expiry timestamp strictly in the past the file
is expired; (2) if at least one domain-matching entry has expiry `0` or a
future timestamp it is not expired; (3) a file older than the configured
max age is expired; (4) a file none of whose relevant entries has a future
(or zero) expiry is expired; (5) a missing file is expired. -/
theorem cookie_expiry_correct :
    (∀ (age : ℚ) (lines : List String) (maxAge : Option ℚ) (doms : List String)
       (now : Int) (l : String) (e : Int),
       maxAgeOk maxAge age →
       lines.filter (cookieLineRelevant doms) = [l] →
       cookieLineExpiry l = some e → e ≠ 0 → e < now →
       is_cookie_file_expired true age lines maxAge doms now = true)
  ∧ (∀ (age : ℚ) (lines : List String) (maxAge : Option ℚ) (doms : List String)
       (now : Int) (l : String),
       maxAgeOk maxAge age →
       l ∈ lines → cookieLineRelevant doms l = true →
       expiryValid now (cookieLineExpiry l) = true →
       is_cookie_file_expired true age lines maxAge doms now = false)
  ∧ (∀ (age : ℚ) (lines : List String) (m : ℚ) (doms : List String) (now : Int),
       age > m →
       is_cookie_file_expired true age lines (some m) doms now = true)
  ∧ (∀ (age : ℚ) (lines : List String) (maxAge : Option ℚ) (doms : List String)
       (now : Int),
       maxAgeOk maxAge age →
       (∀ l ∈ lines, cookieLineRelevant doms l = true →
         expiryValid now (cookieLineExpiry l) = false) →
       is_cookie_file_expired true age lines maxAge doms now = true)
  ∧ (∀ (age : ℚ) (lines : List String) (maxAge : Option ℚ) (doms : List String)
       (now : Int),
       is_cookie_file_expired false age lines maxAge doms now = true) := by
  refine ⟨?_, ?_, ?_, ?_, ?_⟩
  · intro age lines maxAge doms now l e hmax hfil hexp hez hlt
    apply expired_of_no_valid hmax
    intro x hx hr
    have hxl : x = l := by
      have : x ∈ lines.filter (cookieLineRelevant doms) := List.mem_filter.mpr ⟨hx, hr⟩
      rw [hfil] at this
      simpa using this
    subst hxl
    rw [hexp]
    unfold expiryValid
    have h1 : ¬ (e = 0) := hez
    have h2 : ¬ (e > now) := by omega
    simp [h1, h2]
  · intro age lines maxAge doms now l hmax hmem hrel hval
    exact not_expired_of_valid hmax hmem hrel hval
  · intro age lines m doms now hgt
    unfold is_cookie_file_expired
    simp [hgt]
  · intro age lines maxAge doms now hmax hnv
    exact expired_of_no_valid hmax hnv
  · intro age lines maxAge doms now
    unfold is_cookie_file_expired
    simp

/-- Witness for C4: a concrete cookie file whose single youtube entry
expires at 100 is expired at time 1000, and one with expiry 0 is fresh. -/
theorem cookie_expiry_correct_witness :
    is_cookie_file_expired true 0
      [ ".youtube.com\tTRUE\t/\tFALSE\t100\tSID\tabc" ] none
      [ "youtube.com" ] 1000 = true
  ∧ is_cookie_file_expired true 0
      [ ".youtube.com\tTRUE\t/\tFALSE\t0\tSID\tabc" ] none
      [ "youtube.com" ] 1000 = false :=
  ⟨cookie_expiry_correct.1 0 _ none _ 1000
      ".youtube.com\tTRUE\t/\tFALSE\t100\tSID\tabc" 100
      (Or.inl rfl) (by decide) (by decide) (by decide) (by decide),
   cookie_expiry_correct.2.1 0 _ none _ 1000
      ".youtube.com\tTRUE\t/\tFALSE\t0\tSID\tabc"
      (Or.inl rfl) (by decide) (by decide) (by decide)⟩

/-! ### Download retry protocol (`download_with_callbacks`, `src/bot/service.py`)

The worker job is opaque: the results of the (at most two) invocations are
parameters `r1`, `r2`, and the returned trace records the credential
reference passed to each invocation. -/

structure DownloadResult where
  ok : Bool
  error : Option String
deriving DecidableEq

structure RetryConfig where
  cookie_auto_refresh : Bool
  cookie_file : Option String
deriving DecidableEq

/-- The fixed auth-rejection signatures of `download_with_callbacks`. -/
def invalid_cookie_markers : List String :=
  [ "cookies are no longer valid", "sign in to confirm",
    "use --cookies-from-browser", "use --cookies for the authentication" ]

/-- `cookie_file = config.cookie_file; if cookie_file and not
cookie_file.exists(): cookie_file = None`. -/
def cookieRef (configCookie : Option String) (fileExists : Bool) : Option String :=
  match configCookie with
  | none => none
  | some p => if fileExists then some p else none

/-- Python `not result.error` (`None` or the empty string). -/
def pyFalsyErr : Option String → Bool
  | none => true
  | some s => s = ""

/-- `any(marker in error_text for marker in invalid_cookie_markers)` with
`error_text = result.error.lower()`. -/
def errorMatchesCookieMarkers (error : Option String) : Bool :=
  let errorText := pyLower (error.getD "")
  invalid_cookie_markers.any (fun marker => pyContains errorText marker)

/-- The retry tail of `download_with_callbacks` (everything after the
first `_run_once()`), returning the list of credential references used by
the job invocations together with the final result. -/
def download_with_callbacks_retry (cfg : RetryConfig) (existsBefore existsAfter : Bool)
    (refreshOk : Bool) (r1 r2 : DownloadResult) : List (Option String) × DownloadResult :=
  let ref1 := cookieRef cfg.cookie_file existsBefore
  if r1.ok || pyFalsyErr r1.error then ([ ref1 ], r1)
  else if cfg.cookie_auto_refresh && errorMatchesCookieMarkers r1.error then
    if refreshOk then ([ ref1, cookieRef cfg.cookie_file existsAfter ], r2)
    else ([ ref1 ], r1)
  else ([ ref1 ], r1)

/-- **C1** — Job-retry law.  When the first attempt fails with an error
text matching an auth-rejection signature, auto-refresh is enabled and the
forced refresh reports success, the job runs exactly a second time with
the refreshed credential reference and its result is returned; in every
other case exactly one attempt is made, so no run ever makes a third
attempt. -/
theorem download_retry_law (cfg : RetryConfig) (eb ea rok : Bool) (r1 r2 : DownloadResult) :
    ((r1.ok = false ∧ pyFalsyErr r1.error = false
        ∧ cfg.cookie_auto_refresh = true
        ∧ errorMatchesCookieMarkers r1.error = true ∧ rok = true) →
      download_with_callbacks_retry cfg eb ea rok r1 r2
        = ([ cookieRef cfg.cookie_file eb, cookieRef cfg.cookie_file ea ], r2))
  ∧ (¬ (r1.ok = false ∧ pyFalsyErr r1.error = false
        ∧ cfg.cookie_auto_refresh = true
        ∧ errorMatchesCookieMarkers r1.error = true ∧ rok = true) →
      download_with_callbacks_retry cfg eb ea rok r1 r2
        = ([ cookieRef cfg.cookie_file eb ], r1)) := by
  constructor
  · rintro ⟨h1, h2, h3, h4, h5⟩
    subst h5
    unfold download_with_callbacks_retry
    simp [h1, h2, h3, h4]
  · intro hn
    unfold download_with_callbacks_retry
    by_cases h1 : r1.ok = true
    · simp [h1]
    · simp only [Bool.not_eq_true] at h1
      by_cases h2 : pyFalsyErr r1.error = true
      · simp [h1, h2]
      · simp only [Bool.not_eq_true] at h2
        by_cases h3 : cfg.cookie_auto_refresh = true
        · by_cases h4 : errorMatchesCookieMarkers r1.error = true
          · have h5 : rok = false := by
              cases hrok : rok
              · rfl
              · exact absurd ⟨h1, h2, h3, h4, hrok⟩ hn
            simp [h1, h2, h3, h4, h5]
          · simp only [Bool.not_eq_true] at h4
            simp [h1, h2, h3, h4]
        · simp only [Bool.not_eq_true] at h3
          simp [h1, h2, h3]

/-- Witness for C1: a concrete auth-rejected first attempt retries once
with the refreshed reference; a non-matching error does not retry. -/
theorem download_retry_law_witness :
    download_with_callbacks_retry ⟨true, some "cookies.txt"⟩ true true true
        ⟨false, some "ERROR: Sign in to confirm you are not a bot"⟩ ⟨true, none⟩
      = ([ some "cookies.txt", some "cookies.txt" ], ⟨true, none⟩)
  ∧ download_with_callbacks_retry ⟨true, some "cookies.txt"⟩ true true true
        ⟨false, some "ERROR: unavailable"⟩ ⟨true, none⟩
      = ([ some "cookies.txt" ], ⟨false, some "ERROR: unavailable"⟩) :=
  ⟨(download_retry_law ⟨true, some "cookies.txt"⟩ true true true
      ⟨false, some "ERROR: Sign in to confirm you are not a bot"⟩ ⟨true, none⟩).1
      (by decide),
   (download_retry_law ⟨true, some "cookies.txt"⟩ true true true
      ⟨false, some "ERROR: unavailable"⟩ ⟨true, none⟩).2
      (by decide)⟩

/-! ### Progress bridge (`ProgressReporter`, `src/bot/handlers.py`)

Time is an explicit rational parameter (`time.monotonic()`); the returned
`Bool` of each operation records whether a status-message edit was
scheduled. -/

structure ProgressReporter where
  last_send : ℚ
  status : Option String
  progress : Option ℚ
  details : Option String
deriving DecidableEq

/-- A fresh reporter (`_last_send = 0.0`, empty snapshot). -/
def ProgressReporter.init : ProgressReporter :=
  ⟨0, none, none, none⟩

/-- `_schedule_update`: suppressed unless ≥ 2 seconds since the last
flush; a flush records its own time. -/
def schedule_update (now : ℚ) (st : ProgressReporter) : Bool × ProgressReporter :=
  if now - st.last_send < 2 then (false, st)
  else (true, { st with last_send := now })

/-- `force_update`: always edits, ignores and leaves the debounce state. -/
def force_update (st : ProgressReporter) (_text : String) : Bool × ProgressReporter :=
  (true, st)

/-- A worker callback: `status`/`progress`/`details`, with the monotonic
time at which it fires. -/
inductive ProgressEvent where
  | status (t : ℚ) (text : String)
  | progress (t : ℚ) (value : ℚ)
  | details (t : ℚ) (text : String)
deriving DecidableEq

def ProgressEvent.time : ProgressEvent → ℚ
  | .status t _ => t
  | .progress t _ => t
  | .details t _ => t

/-- Effect of one callback: update the snapshot field, then
`_schedule_update`. -/
def progressStep (st : ProgressReporter) : ProgressEvent → Bool × ProgressReporter
  | .status t text => schedule_update t { st with status := some text }
  | .progress t v => schedule_update t { st with progress := some v }
  | .details t text => schedule_update t { st with details := some text }

/-- Times of the non-forced flushes produced by a run of callbacks. -/
def flushTimes (st : ProgressReporter) : List ProgressEvent → List ℚ
  | [] => []
  | e :: rest =>
    let r := progressStep st e
    if r.1 then e.time :: flushTimes r.2 rest
    else flushTimes r.2 rest

theorem flushTimes_ge_last (st : ProgressReporter) (evs : List ProgressEvent) :
    (∀ t ∈ flushTimes st evs, st.last_send + 2 ≤ t)
    ∧ (flushTimes st evs).Chain' (fun a b => a + 2 ≤ b) := by
  induction evs generalizing st with
  | nil => exact ⟨by simp [flushTimes], by simp [flushTimes]⟩
  | cons e rest ih =>
    cases e with
    | status t text =>
      by_cases h : t - st.last_send < 2
      · have : flushTimes st (.status t text :: rest)
            = flushTimes { st with status := some text } rest := by
          simp [flushTimes, progressStep, schedule_update, h]
        rw [this]
        obtain ⟨ha, hc⟩ := ih { st with status := some text }
        exact ⟨fun x hx => ha x hx, hc⟩
      · have heq : flushTimes st (.status t text :: rest)
            = t :: flushTimes { st with status := some text, last_send := t } rest := by
          simp [flushTimes, progressStep, schedule_update, h, ProgressEvent.time]
        rw [heq]
        obtain ⟨ha, hc⟩ := ih { st with status := some text, last_send := t }
        refine ⟨?_, ?_⟩
        · intro x hx
          rcases List.mem_cons.mp hx with hx | hx
          · subst hx; linarith [not_lt.mp h]
          · have := ha x hx
            simp only at this
            linarith
        · refine List.chain'_cons'.mpr ⟨?_, hc⟩
          intro y hy
          have hmem : y ∈ flushTimes { st with status := some text, last_send := t } rest :=
            List.mem_of_mem_head? hy
          have := ha y hmem
          simpa using this
    | progress t v =>
      by_cases h : t - st.last_send < 2
      · have : flushTimes st (.progress t v :: rest)
            = flushTimes { st with progress := some v } rest := by
          simp [flushTimes, progressStep, schedule_update, h]
        rw [this]
        obtain ⟨ha, hc⟩ := ih { st with progress := some v }
        exact ⟨fun x hx => ha x hx, hc⟩
      · have heq : flushTimes st (.progress t v :: rest)
            = t :: flushTimes { st with progress := some v, last_send := t } rest := by
          simp [flushTimes, progressStep, schedule_update, h, ProgressEvent.time]
        rw [heq]
        obtain ⟨ha, hc⟩ := ih { st with progress := some v, last_send := t }
        refine ⟨?_, ?_⟩
        · intro x hx
          rcases List.mem_cons.mp hx with hx | hx
          · subst hx; linarith [not_lt.mp h]
          · have := ha x hx
            simp only at this
            linarith
        · refine List.chain'_cons'.mpr ⟨?_, hc⟩
          intro y hy
          have hmem : y ∈ flushTimes { st with progress := some v, last_send := t } rest :=
            List.mem_of_mem_head? hy
          have := ha y hmem
          simpa using this
    | details t text =>
      by_cases h : t - st.last_send < 2
      · have : flushTimes st (.details t text :: rest)
            = flushTimes { st with details := some text } rest := by
          simp [flushTimes, progressStep, schedule_update, h]
        rw [this]
        obtain ⟨ha, hc⟩ := ih { st with details := some text }
        exact ⟨fun x hx => ha x hx, hc⟩
      · have heq : flushTimes st (.details t text :: rest)
            = t :: flushTimes { st with details := some text, last_send := t } rest := by
          simp [flushTimes, progressStep, schedule_update, h, ProgressEvent.time]
        rw [heq]
        obtain ⟨ha, hc⟩ := ih { st with details := some text, last_send := t }
        refine ⟨?_, ?_⟩
        · intro x hx
          rcases List.mem_cons.mp hx with hx | hx
          · subst hx; linarith [not_lt.mp h]
          · have := ha x hx
            simp only at this
            linarith
        · refine List.chain'_cons'.mpr ⟨?_, hc⟩
          intro y hy
          have hmem : y ∈ flushTimes { st with details := some text, last_send := t } rest :=
            List.mem_of_mem_head? hy
          have := ha y hmem
          simpa using this

/-- **C6** — Progress debounce.  `force_update` always performs the edit,
for any reporter state (in particular when less than 2 seconds have
elapsed since the last flush), and in any run of non-forced callbacks any
two successive non-forced flushes are at least 2 seconds apart, so each
2-second window holds at most one non-forced flush. -/
theorem progress_debounce :
    (∀ (st : ProgressReporter) (text : String), (force_update st text).1 = true
      ∧ (force_update st text).2 = st)
  ∧ (∀ (st : ProgressReporter) (evs : List ProgressEvent),
      (flushTimes st evs).Chain' (fun a b => a + 2 ≤ b))
  ∧ (∀ (st : ProgressReporter) (evs : List ProgressEvent) (t : ℚ),
      t ∈ flushTimes st evs → st.last_send + 2 ≤ t) :=
  ⟨fun _ _ => ⟨rfl, rfl⟩,
   fun st evs => (flushTimes_ge_last st evs).2,
   fun st evs t ht => (flushTimes_ge_last st evs).1 t ht⟩

/-- Witness for C6: a concrete flush time obtained from a single callback
2+ seconds after start satisfies the debounce bound. -/
theorem progress_debounce_witness :
    (force_update ProgressReporter.init "done").1 = true
  ∧ ProgressReporter.init.last_send + 2 ≤ 5 := by
  have hmem : (5:ℚ) ∈ flushTimes ProgressReporter.init [ .status 5 "go" ] := by
    norm_num [flushTimes, progressStep, schedule_update, ProgressReporter.init,
      ProgressEvent.time]
  exact ⟨(progress_debounce.1 ProgressReporter.init "done").1,
         progress_debounce.2.2 ProgressReporter.init [ .status 5 "go" ] 5 hmem⟩

/-! ### Selection store (`src/bot/handlers.py`)

The `format_selections` dict is an association list keyed by the opaque
token; `time.time()` is an explicit parameter. -/

/-- The `FormatOption` dataclass of `src/bot/service.py`. -/
structure FormatOption where
  format_id : String
  label : String
  quality_label : String
  is_audio_only : Bool
  format_has_audio : Bool
  ext : Option String
  filesize : Option Int
deriving DecidableEq

def SELECTION_TTL_SECONDS : ℚ := 60 * 60

/-- One stored selection payload. -/
structure StoredSelection where
  url : String
  options : List FormatOption
  owner_id : Option Int
  chat_id : Option Int
  message_id : Option Int
  created_at : ℚ
deriving DecidableEq

abbrev SelectionStore := List (String × StoredSelection)

/-- `_cleanup_selections`: evict every entry strictly older than the TTL. -/
def cleanup_selections (now : ℚ) (store : SelectionStore) : SelectionStore :=
  store.filter (fun kv => !(decide (now - kv.2.created_at > SELECTION_TTL_SECONDS)))

/-- The store-write of `_handle_url`: sweep, then store the payload with
`created_at = time.time()`. -/
def store_selection (now : ℚ) (store : SelectionStore) (token : String)
    (sel : StoredSelection) : SelectionStore :=
  (token, { sel with created_at := now }) :: cleanup_selections now store

inductive PickOutcome where
  | expired
  | notForYou
  | badChoice
  | picked (option : FormatOption)
deriving DecidableEq

def PickOutcome.isPicked : PickOutcome → Bool
  | .picked _ => true
  | _ => false

/-- The selection-consumption path of `format_selection_callback`: sweep,
look the token up, check ownership, check the option index, and only then
pop the token. -/
def format_selection_take (now : ℚ) (store : SelectionStore) (fromUser : Option Int)
    (selection_id : String) (idx : Int) : PickOutcome × SelectionStore :=
  match (cleanup_selections now store).lookup selection_id with
  | none => (.expired, cleanup_selections now store)
  | some payload =>
    if pyTruthyInt payload.owner_id && fromUser.isSome
        && decide (fromUser ≠ payload.owner_id) then
      (.notForYou, cleanup_selections now store)
    else if h : idx < 0 ∨ (payload.options.length : Int) ≤ idx then
      (.badChoice, cleanup_selections now store)
    else
      (.picked (payload.options.get ⟨idx.toNat, by omega⟩),
       (cleanup_selections now store).filter (fun kv => kv.1 ≠ selection_id))

theorem keys_ne_of_lookup_none {l : SelectionStore} {k : String}
    (h : l.lookup k = none) : ∀ p ∈ l, p.1 ≠ k := by
  induction l with
  | nil => simp
  | cons a t ih =>
    obtain ⟨a1, a2⟩ := a
    rw [List.lookup_cons] at h
    intro p hp
    cases hbeq : (k == a1) with
    | true => simp [hbeq] at h
    | false =>
      simp only [hbeq] at h
      rcases List.mem_cons.mp hp with he | ht
      · subst he
        simp only [ne_eq]
        intro hc
        rw [hc] at hbeq
        simp at hbeq
      · exact ih h p ht

theorem lookup_none_of_keys_ne {l : SelectionStore} {k : String}
    (h : ∀ p ∈ l, p.1 ≠ k) : l.lookup k = none := by
  induction l with
  | nil => rfl
  | cons a t ih =>
    obtain ⟨a1, a2⟩ := a
    rw [List.lookup_cons]
    have ha : a1 ≠ k := h (a1, a2) (by simp)
    have hk : (k == a1) = false := by
      simp only [beq_eq_false_iff_ne, ne_eq]
      exact fun he => ha he.symm
    simp only [hk]
    exact ih (fun p hp => h p (List.mem_cons_of_mem _ hp))

theorem lookup_filter_none {l : SelectionStore} {k : String}
    (h : l.lookup k = none) (p : String × StoredSelection → Bool) :
    (l.filter p).lookup k = none :=
  lookup_none_of_keys_ne
    (fun q hq => keys_ne_of_lookup_none h q (List.mem_filter.mp hq).1)

theorem lookup_erase_self (l : SelectionStore) (k : String) :
    (l.filter (fun kv => kv.1 ≠ k)).lookup k = none := by
  apply lookup_none_of_keys_ne
  intro p hp
  have := (List.mem_filter.mp hp).2
  simpa using this

/-- **C2** — Selection consumption discipline.  A successful pick removes
the token, after which every later pick of the same token answers
"expired"; a pick by a different principal than the stored non-null owner
is rejected with "not for you" and leaves the post-sweep store unchanged
(the token still present); and a token is never removed from the
post-sweep store by an unsuccessful pick. -/
theorem selection_consumption (now : ℚ) (store : SelectionStore) (u : Option Int)
    (tok : String) (idx : Int) :
    (∀ (o : FormatOption) (store' : SelectionStore),
      format_selection_take now store u tok idx = (.picked o, store') →
        store'.lookup tok = none
        ∧ ∀ (now' : ℚ) (u' : Option Int) (idx' : Int),
            (format_selection_take now' store' u' tok idx').1 = .expired)
  ∧ (∀ (store' : SelectionStore),
      format_selection_take now store u tok idx = (.notForYou, store') →
        store' = cleanup_selections now store ∧ store'.lookup tok ≠ none)
  ∧ ((format_selection_take now store u tok idx).1.isPicked = false →
      (format_selection_take now store u tok idx).2.lookup tok
        = (cleanup_selections now store).lookup tok) := by
  refine ⟨?_, ?_, ?_⟩
  · intro o store' h
    have hstore' : store'
        = (cleanup_selections now store).filter (fun kv => kv.1 ≠ tok) := by
      unfold format_selection_take at h
      split at h
      · cases h
      · split at h
        · cases h
        · split at h
          · cases h
          · simp only [Prod.mk.injEq] at h
            exact h.2.symm
    have hnone : store'.lookup tok = none := by
      rw [hstore']
      exact lookup_erase_self _ _
    refine ⟨hnone, ?_⟩
    intro now' u' idx'
    have hnone' : (cleanup_selections now' store').lookup tok = none :=
      lookup_filter_none hnone _
    unfold format_selection_take
    split
    · rfl
    · rename_i payload hp
      rw [hnone'] at hp
      cases hp
  · intro store' h
    unfold format_selection_take at h
    split at h
    · cases h
    · rename_i payload hp
      split at h
      · simp only [Prod.mk.injEq] at h
        refine ⟨h.2.symm, ?_⟩
        rw [← h.2, hp]
        simp
      · split at h
        · cases h
        · cases h
  · intro h
    rcases hfr : format_selection_take now store u tok idx with ⟨out, st2⟩
    rw [hfr] at h
    simp only at h ⊢
    unfold format_selection_take at hfr
    split at hfr
    · simp only [Prod.mk.injEq] at hfr
      rw [← hfr.2]
    · split at hfr
      · simp only [Prod.mk.injEq] at hfr
        rw [← hfr.2]
      · split at hfr
        · simp only [Prod.mk.injEq] at hfr
          rw [← hfr.2]
        · simp only [Prod.mk.injEq] at hfr
          rw [← hfr.1] at h
          simp [PickOutcome.isPicked] at h

/-- Witness for C2: picking the sole entry consumes it and a foreign
principal is turned away with the post-sweep store intact. -/
theorem selection_consumption_witness :
    List.lookup "tok" ([] : SelectionStore) = none
  ∧ (format_selection_take 99 ([] : SelectionStore) (some 7) "tok" 0).1 = .expired
  ∧ List.lookup "tok"
      [ ("tok", (⟨"https://youtu.be/x",
          [ ⟨"22", "720p", "720p (mp4)", false, true, some "mp4", none⟩ ],
          some 7, some 5, some 9, 4⟩ : StoredSelection)) ] ≠ none := by
  have hclean : cleanup_selections 10
      [ ("tok", (⟨"https://youtu.be/x",
          [ ⟨"22", "720p", "720p (mp4)", false, true, some "mp4", none⟩ ],
          some 7, some 5, some 9, 4⟩ : StoredSelection)) ]
      = [ ("tok", ⟨"https://youtu.be/x",
          [ ⟨"22", "720p", "720p (mp4)", false, true, some "mp4", none⟩ ],
          some 7, some 5, some 9, 4⟩) ] := by
    unfold cleanup_selections SELECTION_TTL_SECONDS
    norm_num
  have hpick : format_selection_take 10
      [ ("tok", ⟨"https://youtu.be/x",
          [ ⟨"22", "720p", "720p (mp4)", false, true, some "mp4", none⟩ ],
          some 7, some 5, some 9, 4⟩) ] (some 7) "tok" 0
      = (.picked ⟨"22", "720p", "720p (mp4)", false, true, some "mp4", none⟩, []) := by
    unfold format_selection_take
    rw [hclean]
    norm_num [List.lookup_cons, pyTruthyInt]
  have hrej : format_selection_take 10
      [ ("tok", ⟨"https://youtu.be/x",
          [ ⟨"22", "720p", "720p (mp4)", false, true, some "mp4", none⟩ ],
          some 7, some 5, some 9, 4⟩) ] (some 8) "tok" 0
      = (.notForYou,
         [ ("tok", ⟨"https://youtu.be/x",
            [ ⟨"22", "720p", "720p (mp4)", false, true, some "mp4", none⟩ ],
            some 7, some 5, some 9, 4⟩) ]) := by
    unfold format_selection_take
    rw [hclean]
    norm_num [List.lookup_cons, pyTruthyInt]
  refine ⟨?_, ?_, ?_⟩
  · exact (((selection_consumption 10
      [ ("tok", ⟨"https://youtu.be/x",
          [ ⟨"22", "720p", "720p (mp4)", false, true, some "mp4", none⟩ ],
          some 7, some 5, some 9, 4⟩) ] (some 7) "tok" 0).1
      ⟨"22", "720p", "720p (mp4)", false, true, some "mp4", none⟩ [] hpick).1)
  · exact (((selection_consumption 10
      [ ("tok", ⟨"https://youtu.be/x",
          [ ⟨"22", "720p", "720p (mp4)", false, true, some "mp4", none⟩ ],
          some 7, some 5, some 9, 4⟩) ] (some 7) "tok" 0).1
      ⟨"22", "720p", "720p (mp4)", false, true, some "mp4", none⟩ [] hpick).2) 99 (some 7) 0
  · exact ((selection_consumption 10
      [ ("tok", ⟨"https://youtu.be/x",
          [ ⟨"22", "720p", "720p (mp4)", false, true, some "mp4", none⟩ ],
          some 7, some 5, some 9, 4⟩) ] (some 8) "tok" 0).2.1
      [ ("tok", ⟨"https://youtu.be/x",
          [ ⟨"22", "720p", "720p (mp4)", false, true, some "mp4", none⟩ ],
          some 7, some 5, some 9, 4⟩) ] hrej).2

theorem lookup_nodup_unique {l : SelectionStore} {k : String} {v : StoredSelection}
    (hnd : (l.map Prod.fst).Nodup) (h : l.lookup k = some v) :
    ∀ p ∈ l, p.1 = k → p = (k, v) := by
  induction l with
  | nil => intro p hp; simp at hp
  | cons a t ih =>
    obtain ⟨a1, a2⟩ := a
    rw [List.lookup_cons] at h
    simp only [List.map_cons, List.nodup_cons] at hnd
    obtain ⟨hna, hndt⟩ := hnd
    intro p hp hpk
    cases hbeq : (k == a1) with
    | true =>
      have hkeq : k = a1 := by simpa using hbeq
      rw [hbeq] at h
      have hv : a2 = v := by simpa using h
      rcases List.mem_cons.mp hp with he | ht
      · subst he
        rw [hkeq, hv]
      · exfalso
        apply hna
        have hm : p.1 ∈ t.map Prod.fst := List.mem_map.mpr ⟨p, ht, rfl⟩
        rw [hpk, hkeq] at hm
        exact hm
    | false =>
      simp only [hbeq] at h
      rcases List.mem_cons.mp hp with he | ht
      · exfalso
        have hne : k ≠ a1 := by simpa using hbeq
        subst he
        exact hne hpk.symm
      · exact ih hndt h p ht hpk

/-- **C7** — TTL eviction.  With a duplicate-free store, a token whose
entry is strictly older than `SELECTION_TTL_SECONDS` is answered
"expired" by a pick (the sweep runs first), and storing a new selection
also evicts every stale entry. -/
theorem selection_ttl (now : ℚ) (store : SelectionStore) (tok : String)
    (sel : StoredSelection) (u : Option Int) (idx : Int) :
    ((store.map Prod.fst).Nodup → store.lookup tok = some sel →
      now - sel.created_at > SELECTION_TTL_SECONDS →
      (format_selection_take now store u tok idx).1 = .expired)
  ∧ (∀ (tok' : String) (sel' : StoredSelection) (e : String × StoredSelection),
      e ∈ store → now - e.2.created_at > SELECTION_TTL_SECONDS →
      e ∉ store_selection now store tok' sel') := by
  constructor
  · intro hnd hl hold
    have hnone : (cleanup_selections now store).lookup tok = none := by
      apply lookup_none_of_keys_ne
      intro p hp hpk
      have hmem : p ∈ store := (List.mem_filter.mp hp).1
      have hpe : p = (tok, sel) := lookup_nodup_unique hnd hl p hmem hpk
      have hkept := (List.mem_filter.mp hp).2
      rw [hpe] at hkept
      simp only [Bool.not_eq_true', decide_eq_false_iff_not] at hkept
      exact hkept hold
    unfold format_selection_take
    split
    · rfl
    · rename_i payload hp
      rw [hnone] at hp
      cases hp
  · intro tok' sel' e he hold hmem
    rcases List.mem_cons.mp hmem with hh | ht
    · have hc : e.2.created_at = now := by rw [hh]
      rw [hc] at hold
      simp only [sub_self] at hold
      have hpos : (0:ℚ) < SELECTION_TTL_SECONDS := by norm_num [SELECTION_TTL_SECONDS]
      exact absurd hold (by linarith)
    · have := (List.mem_filter.mp ht).2
      simp only [Bool.not_eq_true', decide_eq_false_iff_not] at this
      exact this hold

/-- Witness for C7: a pick of an hour-old entry at time 3601 is expired,
and the stale entry is gone after storing a fresh one. -/
theorem selection_ttl_witness :
    (format_selection_take 3601
        [ ("tok", ⟨"https://youtu.be/x", [], some 7, some 5, some 9, 0⟩) ]
        (some 7) "tok" 0).1 = .expired
  ∧ ("tok", (⟨"https://youtu.be/x", [], some 7, some 5, some 9, 0⟩ : StoredSelection))
      ∉ store_selection 3601
        [ ("tok", ⟨"https://youtu.be/x", [], some 7, some 5, some 9, 0⟩) ]
        "tok2" ⟨"https://youtu.be/y", [], some 7, some 5, some 9, 0⟩ := by
  constructor
  · exact (selection_ttl 3601
      [ ("tok", ⟨"https://youtu.be/x", [], some 7, some 5, some 9, 0⟩) ] "tok"
      ⟨"https://youtu.be/x", [], some 7, some 5, some 9, 0⟩
      (some 7) 0).1 (by simp) (by simp [List.lookup_cons])
      (by norm_num [SELECTION_TTL_SECONDS])
  · exact (selection_ttl 3601
      [ ("tok", ⟨"https://youtu.be/x", [], some 7, some 5, some 9, 0⟩) ] "tok"
      ⟨"https://youtu.be/x", [], some 7, some 5, some 9, 0⟩ (some 7) 0).2
      "tok2" ⟨"https://youtu.be/y", [], some 7, some 5, some 9, 0⟩
      ("tok", ⟨"https://youtu.be/x", [], some 7, some 5, some 9, 0⟩)
      (by simp) (by norm_num [SELECTION_TTL_SECONDS])

/-! ### Access gate and attempts log (`src/bot/handlers.py`)

The attempts log and whitelist are line files; the in-memory caches
(`attempts_state`, runtime allow-list) and the mutable
`config.allowed_chat_ids` set live in `BotState`. -/

structure TgUpdate where
  user_id : Option Int
  chat_id : Option Int
  has_message : Bool
deriving DecidableEq

structure GateConfig where
  beta_enabled : Bool
  admin_chat_id : Option Int
deriving DecidableEq

structure BotState where
  attempts_file : List String
  seen : List Int
  loaded : Bool
  runtime_allowed : List Int
  allowed_chat_ids : Option (List Int)
  whitelist_file : List String
deriving DecidableEq

/-- `attempt_id = user_id if user_id is not None else chat_id`. -/
def attemptId (upd : TgUpdate) : Option Int :=
  match upd.user_id with
  | some u => some u
  | none => upd.chat_id

/-- The loop of `_load_attempts_once`: parseable lines join the seen set,
junk lines are skipped. -/
def loadSeen (file : List String) (seen : List Int) : List Int :=
  match file with
  | [] => seen
  | line :: rest =>
    match parsePyInt line with
    | some v => loadSeen rest (v :: seen)
    | none => loadSeen rest seen

/-- `_load_attempts_once` applied to the cache state. -/
def load_attempts_once (st : BotState) : BotState :=
  if st.loaded then st
  else { st with loaded := true, seen := loadSeen st.attempts_file st.seen }

/-- `_record_attempt`: lazily load the log, test membership, and on a
first-ever attempt append the id to the log and to the cache.  Returns
whether the attempt was new. -/
def record_attempt (upd : TgUpdate) (st : BotState) : Bool × BotState :=
  match attemptId upd with
  | none => (false, st)
  | some attempt_id =>
    if attempt_id ∈ (load_attempts_once st).seen then (false, load_attempts_once st)
    else
      (true,
       { load_attempts_once st with
         attempts_file :=
           (load_attempts_once st).attempts_file ++ [ toString attempt_id ],
         seen := attempt_id :: (load_attempts_once st).seen })

/-- `_is_admin`. -/
def is_admin (upd : TgUpdate) (cfg : GateConfig) : Bool :=
  if !pyTruthyInt cfg.admin_chat_id then false
  else decide (cfg.admin_chat_id = upd.user_id) || decide (cfg.admin_chat_id = upd.chat_id)

/-- `_combined_allowed_ids`: configured set united with the runtime set. -/
def combined_allowed_ids (st : BotState) : List Int :=
  (match st.allowed_chat_ids with
   | some l => l
   | none => []) ++ st.runtime_allowed

def optMemInt (o : Option Int) (l : List Int) : Bool :=
  match o with
  | none => false
  | some v => v ∈ l

/-- `_is_allowed`. -/
def is_allowed (upd : TgUpdate) (cfg : GateConfig) (st : BotState) : Bool :=
  if !cfg.beta_enabled then true
  else if is_admin upd cfg then true
  else if combined_allowed_ids st = [] then false
  else optMemInt upd.user_id (combined_allowed_ids st)
    || optMemInt upd.chat_id (combined_allowed_ids st)

/-- `_ensure_allowed`: returns `(allowed, state, pending_reply_sent,
admin_notified)`.  A pending reply goes out whenever the update carries a
message and access is denied; the admin notification additionally needs a
first-ever attempt, a configured admin and a user id. -/
def ensure_allowed (upd : TgUpdate) (cfg : GateConfig) (st : BotState) :
    Bool × BotState × Bool × Bool :=
  if !cfg.beta_enabled then (true, st, false, false)
  else if is_allowed upd cfg (record_attempt upd st).2 then
    (true, (record_attempt upd st).2, false, false)
  else
    (false, (record_attempt upd st).2, upd.has_message,
     (record_attempt upd st).1 && pyTruthyInt cfg.admin_chat_id && upd.user_id.isSome)

/-- A gate-relevant event: an inbound gated request, or a process restart
(which clears every in-memory cache and reloads the configured allow-list,
but keeps the attempts log file). -/
inductive GateEvent where
  | req (upd : TgUpdate)
  | restart (reloaded : Option (List Int))
deriving DecidableEq

/-- One step: next state plus the principal the admin was notified about
(if any). -/
def gateStep (cfg : GateConfig) (st : BotState) : GateEvent → BotState × Option Int
  | .req upd =>
    ((ensure_allowed upd cfg st).2.1,
     if (ensure_allowed upd cfg st).2.2.2 then attemptId upd else none)
  | .restart reloaded =>
    ({ st with seen := [], loaded := false, runtime_allowed := [],
               allowed_chat_ids := reloaded }, none)

/-- How many admin notifications a trace produces about principal `p`. -/
def notifCount (cfg : GateConfig) (p : Int) : BotState → List GateEvent → Nat
  | _, [] => 0
  | st, e :: rest =>
    (if (gateStep cfg st e).2 = some p then 1 else 0)
    + notifCount cfg p (gateStep cfg st e).1 rest

/-- The attempts log already names principal `p`. -/
def fileHas (file : List String) (p : Int) : Prop :=
  ∃ line ∈ file, parsePyInt line = some p

/-- Invariant: `p` is in the persisted log, and in the cache once loaded. -/
def Qp (p : Int) (st : BotState) : Prop :=
  fileHas st.attempts_file p ∧ (st.loaded = true → p ∈ st.seen)

theorem mem_loadSeen {l : List String} {acc : List Int} {v : Int} :
    v ∈ loadSeen l acc ↔ v ∈ acc ∨ ∃ line ∈ l, parsePyInt line = some v := by
  induction l generalizing acc with
  | nil => simp [loadSeen]
  | cons line t ih =>
    cases hp : parsePyInt line with
    | some w =>
      rw [loadSeen, hp, ih]
      constructor
      · rintro (hm | hm)
        · rcases List.mem_cons.mp hm with he | ha
          · exact Or.inr ⟨line, by simp, by rw [hp, he]⟩
          · exact Or.inl ha
        · obtain ⟨l2, hl2, hpl2⟩ := hm
          exact Or.inr ⟨l2, List.mem_cons_of_mem _ hl2, hpl2⟩
      · rintro (hm | hm)
        · exact Or.inl (List.mem_cons_of_mem _ hm)
        · obtain ⟨l2, hl2, hpl2⟩ := hm
          rcases List.mem_cons.mp hl2 with he | ha
          · subst he
            rw [hp] at hpl2
            have : w = v := by injection hpl2
            exact Or.inl (this ▸ List.mem_cons_self _ _)
          · exact Or.inr ⟨l2, ha, hpl2⟩
    | none =>
      rw [loadSeen, hp, ih]
      constructor
      · rintro (hm | hm)
        · exact Or.inl hm
        · obtain ⟨l2, hl2, hpl2⟩ := hm
          exact Or.inr ⟨l2, List.mem_cons_of_mem _ hl2, hpl2⟩
      · rintro (hm | hm)
        · exact Or.inl hm
        · obtain ⟨l2, hl2, hpl2⟩ := hm
          rcases List.mem_cons.mp hl2 with he | ha
          · subst he
            rw [hp] at hpl2
            cases hpl2
          · exact Or.inr ⟨l2, ha, hpl2⟩

theorem load_attempts_once_file (st : BotState) :
    (load_attempts_once st).attempts_file = st.attempts_file := by
  unfold load_attempts_once
  split <;> rfl

theorem load_attempts_once_loaded (st : BotState) :
    (load_attempts_once st).loaded = true := by
  unfold load_attempts_once
  split
  · rename_i h; exact h
  · rfl

theorem mem_seen_load {st : BotState} {p : Int} (hq : Qp p st) :
    p ∈ (load_attempts_once st).seen := by
  unfold load_attempts_once
  split
  · rename_i h; exact hq.2 h
  · exact mem_loadSeen.mpr (Or.inr hq.1)

theorem fileHas_append_left {f g : List String} {p : Int} (h : fileHas f p) :
    fileHas (f ++ g) p := by
  obtain ⟨line, hm, hp⟩ := h
  exact ⟨line, List.mem_append_left _ hm, hp⟩

theorem record_attempt_spec (upd : TgUpdate) (st : BotState) (p : Int) :
    (fileHas st.attempts_file p → fileHas (record_attempt upd st).2.attempts_file p)
  ∧ (Qp p st → Qp p (record_attempt upd st).2)
  ∧ (Qp p st → attemptId upd = some p → (record_attempt upd st).1 = false)
  ∧ ((record_attempt upd st).1 = true → attemptId upd = some p →
      Qp p (record_attempt upd st).2) := by
  unfold record_attempt
  cases haid : attemptId upd with
  | none =>
    refine ⟨fun h => h, fun h => h, ?_, ?_⟩
    · intro _ _; rfl
    · intro h _; exact Bool.noConfusion h
  | some a =>
    by_cases hmem : a ∈ (load_attempts_once st).seen
    · simp only [if_pos hmem]
      refine ⟨?_, ?_, ?_, ?_⟩
      · intro h
        rw [load_attempts_once_file]
        exact h
      · intro hq
        refine ⟨by rw [load_attempts_once_file]; exact hq.1, fun _ => mem_seen_load hq⟩
      · intro _ _; trivial
      · intro h; exact Bool.noConfusion h
    · simp only [if_neg hmem]
      refine ⟨?_, ?_, ?_, ?_⟩
      · intro h
        show fileHas ((load_attempts_once st).attempts_file ++ [ toString a ]) p
        rw [load_attempts_once_file]
        exact fileHas_append_left h
      · intro hq
        constructor
        · show fileHas ((load_attempts_once st).attempts_file ++ [ toString a ]) p
          rw [load_attempts_once_file]
          exact fileHas_append_left hq.1
        · intro _
          show p ∈ a :: (load_attempts_once st).seen
          exact List.mem_cons_of_mem _ (mem_seen_load hq)
      · intro hq hpa
        exfalso
        have hap : a = p := by injection hpa
        subst hap
        exact hmem (mem_seen_load hq)
      · intro _ hpa
        have hap : a = p := by injection hpa
        subst hap
        constructor
        · show fileHas ((load_attempts_once st).attempts_file ++ [ toString a ]) a
          exact ⟨toString a, List.mem_append_right _ (by simp), parsePyInt_toString a⟩
        · intro _
          show a ∈ a :: (load_attempts_once st).seen
          exact List.mem_cons_self _ _

theorem ensure_allowed_spec (upd : TgUpdate) (cfg : GateConfig) (st : BotState) (p : Int) :
    (Qp p st → Qp p (ensure_allowed upd cfg st).2.1)
  ∧ (Qp p st → ¬((ensure_allowed upd cfg st).2.2.2 = true ∧ attemptId upd = some p))
  ∧ ((ensure_allowed upd cfg st).2.2.2 = true → attemptId upd = some p →
      Qp p (ensure_allowed upd cfg st).2.1) := by
  obtain ⟨hfm, hqp, hqf, hnew⟩ := record_attempt_spec upd st p
  unfold ensure_allowed
  by_cases hb : cfg.beta_enabled = true
  · rw [hb]
    simp only [Bool.not_true, Bool.false_eq_true, if_false]
    by_cases hal : is_allowed upd cfg (record_attempt upd st).2 = true
    · rw [if_pos hal]
      refine ⟨hqp, ?_, ?_⟩
      · rintro _ ⟨hn, _⟩
        exact Bool.noConfusion hn
      · intro hn _
        exact Bool.noConfusion hn
    · rw [if_neg hal]
      refine ⟨hqp, ?_, ?_⟩
      · rintro hq ⟨hn, hap⟩
        have h1 : (record_attempt upd st).1 = true := by
          simp only [Bool.and_eq_true] at hn
          exact hn.1.1
        rw [hqf hq hap] at h1
        exact Bool.noConfusion h1
      · intro hn hap
        have h1 : (record_attempt upd st).1 = true := by
          simp only [Bool.and_eq_true] at hn
          exact hn.1.1
        exact hnew h1 hap
  · simp only [Bool.not_eq_true] at hb
    rw [hb]
    simp only [Bool.not_false, if_true]
    refine ⟨fun h => h, ?_, ?_⟩
    · rintro _ ⟨hn, _⟩
      exact Bool.noConfusion hn
    · intro hn _
      exact Bool.noConfusion hn

theorem gateStep_preserves (cfg : GateConfig) (st : BotState) (e : GateEvent) (p : Int) :
    (Qp p st → Qp p (gateStep cfg st e).1)
  ∧ (Qp p st → (gateStep cfg st e).2 ≠ some p)
  ∧ ((gateStep cfg st e).2 = some p → Qp p (gateStep cfg st e).1) := by
  cases e with
  | req upd =>
    obtain ⟨hqp, hnon, hest⟩ := ensure_allowed_spec upd cfg st p
    simp only [gateStep]
    refine ⟨hqp, ?_, ?_⟩
    · intro hq hsome
      by_cases hn : (ensure_allowed upd cfg st).2.2.2 = true
      · rw [if_pos hn] at hsome
        exact hnon hq ⟨hn, hsome⟩
      · rw [if_neg hn] at hsome
        exact Option.noConfusion hsome
    · intro hsome
      by_cases hn : (ensure_allowed upd cfg st).2.2.2 = true
      · rw [if_pos hn] at hsome
        exact hest hn hsome
      · rw [if_neg hn] at hsome
        exact Option.noConfusion hsome
  | restart r =>
    refine ⟨?_, ?_, ?_⟩
    · intro hq
      exact ⟨hq.1, fun hl => Bool.noConfusion hl⟩
    · intro _ hsome
      exact Option.noConfusion hsome
    · intro hsome
      exact Option.noConfusion hsome

theorem notifCount_zero_of_Qp (cfg : GateConfig) (p : Int) :
    ∀ (evs : List GateEvent) (st : BotState), Qp p st → notifCount cfg p st evs = 0 := by
  intro evs
  induction evs with
  | nil => intro st _; rfl
  | cons e rest ih =>
    intro st hq
    obtain ⟨hqp, hnon, _⟩ := gateStep_preserves cfg st e p
    unfold notifCount
    rw [if_neg (hnon hq)]
    simp only [Nat.zero_add]
    exact ih _ (hqp hq)

theorem notifCount_le_one (cfg : GateConfig) (p : Int) :
    ∀ (evs : List GateEvent) (st : BotState), notifCount cfg p st evs ≤ 1 := by
  intro evs
  induction evs with
  | nil => intro st; exact Nat.zero_le 1
  | cons e rest ih =>
    intro st
    unfold notifCount
    by_cases hs : (gateStep cfg st e).2 = some p
    · rw [if_pos hs]
      have h0 : notifCount cfg p (gateStep cfg st e).1 rest = 0 :=
        notifCount_zero_of_Qp cfg p rest _ ((gateStep_preserves cfg st e p).2.2 hs)
      omega
    · rw [if_neg hs]
      simpa using ih (gateStep cfg st e).1

/-- **C3** — Admin-notification uniqueness.  Over any event trace
(requests and process restarts, from any starting state), the admin is
notified about a given principal at most once for the lifetime of the
attempts log; concretely, a first gated request from unlisted principal
42 yields a pending reply and exactly one admin notification, and the
repeated request yields the pending reply again with no notification. -/
theorem admin_notification_unique :
    (∀ (cfg : GateConfig) (st : BotState) (p : Int) (evs : List GateEvent),
      notifCount cfg p st evs ≤ 1)
  ∧ ensure_allowed ⟨some 42, some 42, true⟩ ⟨true, some 1⟩
      ⟨[], [], false, [], some [], []⟩
      = (false, ⟨[ "42" ], [ 42 ], true, [], some [], []⟩, true, true)
  ∧ ensure_allowed ⟨some 42, some 42, true⟩ ⟨true, some 1⟩
      ⟨[ "42" ], [ 42 ], true, [], some [], []⟩
      = (false, ⟨[ "42" ], [ 42 ], true, [], some [], []⟩, true, false) :=
  ⟨fun cfg st p evs => notifCount_le_one cfg p evs st, by decide, by decide⟩

/-! ### Whitelist file and approval handshake (`src/bot/handlers.py`) -/

/-- `_append_to_whitelist`: parse the existing lines (the same loop as the
attempts loader), append the id only when absent, report success. -/
def append_to_whitelist (file : List String) (user_id : Int) : List String × Bool :=
  if user_id ∈ loadSeen file [] then (file, true)
  else (file ++ [ toString user_id ], true)

/-- Callback payload built by `_build_beta_keyboard`. -/
def beta_approve_data (user_id : Int) : String :=
  "beta:approve:" ++ toString user_id

/-- Callback payload built by `_build_beta_keyboard`. -/
def beta_decline_data (user_id : Int) : String :=
  "beta:decline:" ++ toString user_id

/-- `query.data.split(":")` as a list of strings. -/
def callbackParts (data : String) : List String :=
  (pySplitOn ':' data.toList).map (fun cs => (⟨cs⟩ : String))

inductive BetaOutcome where
  | ignored
  | betaDisabled
  | noRights
  | badId
  | approved (uid : Int)
  | declined (uid : Int)
  | answered
deriving DecidableEq

/-- `beta_request_callback`: the admin approval handshake.  Approval adds
the id to the runtime set, to the mutable configured set (when present)
and to the whitelist file; a decline only acknowledges. -/
def beta_request_callback (cfg : GateConfig) (actor : TgUpdate) (data : String)
    (st : BotState) : BetaOutcome × BotState :=
  if (callbackParts data).length ≠ 3 ∨ (callbackParts data).headD "" ≠ "beta" then
    (.ignored, st)
  else if !cfg.beta_enabled then (.betaDisabled, st)
  else if !is_admin actor cfg then (.noRights, st)
  else
    match parsePyInt ((callbackParts data).getD 2 "") with
    | none => (.badId, st)
    | some user_id =>
      if (callbackParts data).getD 1 "" = "approve" then
        (.approved user_id,
         { st with runtime_allowed := user_id :: st.runtime_allowed,
                   allowed_chat_ids := (match st.allowed_chat_ids with
                                        | none => none
                                        | some l => some (user_id :: l)),
                   whitelist_file := (append_to_whitelist st.whitelist_file user_id).1 })
      else if (callbackParts data).getD 1 "" = "decline" then (.declined user_id, st)
      else (.answered, st)

theorem intToString_ofNat (n : Nat) : (toString (Int.ofNat n)).toList = natDigits n := by
  show (Nat.repr n).toList = natDigits n
  exact natRepr_eq_natDigits n

theorem intToString_negSucc (m : Nat) :
    (toString (Int.negSucc m)).toList = '-' :: natDigits (m + 1) := by
  show ("-" ++ Nat.repr (m + 1)).toList = '-' :: natDigits (m + 1)
  have h : ("-" ++ Nat.repr (m + 1)).toList = "-".toList ++ (Nat.repr (m + 1)).toList := by
    simp [String.toList, String.data_append]
  rw [h, natRepr_eq_natDigits]
  rfl

theorem intToString_chars (i : Int) :
    ∀ c ∈ (toString i).toList, c = '-' ∨ c.isDigit = true := by
  cases i with
  | ofNat n =>
    rw [intToString_ofNat]
    intro c hc
    exact Or.inr (natDigits_all_digit n c hc)
  | negSucc m =>
    rw [intToString_negSucc]
    intro c hc
    rcases List.mem_cons.mp hc with he | ht
    · exact Or.inl he
    · exact Or.inr (natDigits_all_digit (m + 1) c ht)

theorem isDigit_ne_colon {c : Char} (h : c.isDigit = true) : c ≠ ':' := by
  intro he; subst he; simp [Char.isDigit] at h

theorem pySplitOn_no_sep {sep : Char} {cs : List Char} (h : ∀ c ∈ cs, c ≠ sep) :
    pySplitOn sep cs = [ cs ] := by
  induction cs with
  | nil => rfl
  | cons c t ih =>
    have hct : c ≠ sep := h c (by simp)
    have hstep : pySplitOn sep (c :: t) =
        (if c = sep then [] :: pySplitOn sep t
         else match pySplitOn sep t with
              | a :: as => (c :: a) :: as
              | [] => [ [ c ] ]) := rfl
    rw [hstep, ih (fun x hx => h x (List.mem_cons_of_mem _ hx)), if_neg hct]

theorem toString_int_no_colon (uid : Int) : ∀ c ∈ (toString uid).toList, c ≠ ':' := by
  intro c hc
  rcases intToString_chars uid c hc with h | h
  · rw [h]; decide
  · exact isDigit_ne_colon h

theorem mk_toList (s : String) : (⟨s.toList⟩ : String) = s := rfl

theorem callbackParts_approve (uid : Int) :
    callbackParts (beta_approve_data uid) = [ "beta", "approve", toString uid ] := by
  have h1 : pySplitOn ':' (toString uid).toList = [ (toString uid).toList ] :=
    pySplitOn_no_sep (toString_int_no_colon uid)
  have hsplit : (beta_approve_data uid).toList
      = "beta:approve:".toList ++ (toString uid).toList := by
    unfold beta_approve_data
    simp [String.toList, String.data_append]
  unfold callbackParts
  rw [hsplit]
  unfold pySplitOn at h1 ⊢
  rw [List.foldr_append, h1]
  have hpre : "beta:approve:".toList
      = [ 'b', 'e', 't', 'a', ':', 'a', 'p', 'p', 'r', 'o', 'v', 'e', ':' ] := rfl
  rw [hpre]
  simp only [List.foldr_cons, List.foldr_nil]
  norm_num [List.map_cons, mk_toList]
  rfl

theorem callbackParts_decline (uid : Int) :
    callbackParts (beta_decline_data uid) = [ "beta", "decline", toString uid ] := by
  have h1 : pySplitOn ':' (toString uid).toList = [ (toString uid).toList ] :=
    pySplitOn_no_sep (toString_int_no_colon uid)
  have hsplit : (beta_decline_data uid).toList
      = "beta:decline:".toList ++ (toString uid).toList := by
    unfold beta_decline_data
    simp [String.toList, String.data_append]
  unfold callbackParts
  rw [hsplit]
  unfold pySplitOn at h1 ⊢
  rw [List.foldr_append, h1]
  have hpre : "beta:decline:".toList
      = [ 'b', 'e', 't', 'a', ':', 'd', 'e', 'c', 'l', 'i', 'n', 'e', ':' ] := rfl
  rw [hpre]
  simp only [List.foldr_cons, List.foldr_nil]
  norm_num [List.map_cons, mk_toList]
  rfl

/-- **C8** — Approval handshake effects.  With gating enabled and acting
admin: approving `uid` answers "approved", makes `is_allowed` true for an
update carrying that user id, puts a line parsing to `uid` into the
whitelist file (appending exactly one line when it was absent); declining
returns "declined" and leaves the state — hence `is_allowed` — unchanged. -/
theorem beta_approval_effects (cfg : GateConfig) (actor upd : TgUpdate)
    (st : BotState) (uid : Int) :
    (cfg.beta_enabled = true → is_admin actor cfg = true → upd.user_id = some uid →
      (beta_request_callback cfg actor (beta_approve_data uid) st).1 = .approved uid
      ∧ is_allowed upd cfg (beta_request_callback cfg actor (beta_approve_data uid) st).2
          = true
      ∧ fileHas (beta_request_callback cfg actor
          (beta_approve_data uid) st).2.whitelist_file uid
      ∧ (uid ∉ loadSeen st.whitelist_file [] →
          (beta_request_callback cfg actor (beta_approve_data uid) st).2.whitelist_file
            = st.whitelist_file ++ [ toString uid ]))
  ∧ (cfg.beta_enabled = true → is_admin actor cfg = true →
      beta_request_callback cfg actor (beta_decline_data uid) st = (.declined uid, st)) := by
  constructor
  · intro hb hadm hupd
    have hres : beta_request_callback cfg actor (beta_approve_data uid) st
        = (.approved uid,
           { st with runtime_allowed := uid :: st.runtime_allowed,
                     allowed_chat_ids := (match st.allowed_chat_ids with
                                          | none => none
                                          | some l => some (uid :: l)),
                     whitelist_file := (append_to_whitelist st.whitelist_file uid).1 }) := by
      unfold beta_request_callback
      rw [callbackParts_approve]
      rw [if_neg (by simp)]
      rw [hb]
      simp only [Bool.not_true, Bool.false_eq_true, if_false]
      rw [hadm]
      simp only [Bool.not_true, Bool.false_eq_true, if_false]
      have hparse : parsePyInt ([ "beta", "approve", toString uid ].getD 2 "")
          = some uid := parsePyInt_toString uid
      rw [hparse]
      simp
    rw [hres]
    refine ⟨rfl, ?_, ?_, ?_⟩
    · unfold is_allowed
      rw [hb]
      simp only [Bool.not_true, Bool.false_eq_true, if_false]
      by_cases hadm2 : is_admin upd cfg = true
      · rw [if_pos hadm2]
      · rw [if_neg hadm2]
        have hmem : uid ∈ combined_allowed_ids
            { st with runtime_allowed := uid :: st.runtime_allowed,
                      allowed_chat_ids := (match st.allowed_chat_ids with
                                           | none => none
                                           | some l => some (uid :: l)),
                      whitelist_file := (append_to_whitelist st.whitelist_file uid).1 } := by
          unfold combined_allowed_ids
          cases st.allowed_chat_ids with
          | none => simp
          | some l => simp
        rw [if_neg (by intro he; rw [he] at hmem; simp at hmem)]
        have : optMemInt upd.user_id (combined_allowed_ids
            { st with runtime_allowed := uid :: st.runtime_allowed,
                      allowed_chat_ids := (match st.allowed_chat_ids with
                                           | none => none
                                           | some l => some (uid :: l)),
                      whitelist_file := (append_to_whitelist st.whitelist_file uid).1 })
            = true := by
          rw [hupd]
          unfold optMemInt
          simpa using hmem
        rw [this]
        simp
    · show fileHas (append_to_whitelist st.whitelist_file uid).1 uid
      unfold append_to_whitelist
      by_cases hmem : uid ∈ loadSeen st.whitelist_file []
      · rw [if_pos hmem]
        rcases mem_loadSeen.mp hmem with h | h
        · simp at h
        · exact h
      · rw [if_neg hmem]
        exact ⟨toString uid, List.mem_append_right _ (by simp), parsePyInt_toString uid⟩
    · intro hmem
      show (append_to_whitelist st.whitelist_file uid).1 = _
      unfold append_to_whitelist
      rw [if_neg hmem]
  · intro hb hadm
    unfold beta_request_callback
    rw [callbackParts_decline]
    rw [if_neg (by simp)]
    rw [hb]
    simp only [Bool.not_true, Bool.false_eq_true, if_false]
    rw [hadm]
    simp only [Bool.not_true, Bool.false_eq_true, if_false]
    have hparse : parsePyInt ([ "beta", "decline", toString uid ].getD 2 "")
        = some uid := parsePyInt_toString uid
    rw [hparse]
    simp

/-- Witness for C8: the configured admin approves and declines principal
42 from a fresh state. -/
theorem beta_approval_effects_witness :
    (beta_request_callback ⟨true, some 1⟩ ⟨some 1, some 1, true⟩ (beta_approve_data 42)
        ⟨[], [], false, [], some [], []⟩).1 = .approved 42
  ∧ beta_request_callback ⟨true, some 1⟩ ⟨some 1, some 1, true⟩ (beta_decline_data 42)
        ⟨[], [], false, [], some [], []⟩
      = (.declined 42, ⟨[], [], false, [], some [], []⟩) :=
  ⟨((beta_approval_effects ⟨true, some 1⟩ ⟨some 1, some 1, true⟩ ⟨some 42, some 42, true⟩
      ⟨[], [], false, [], some [], []⟩ 42).1 rfl (by decide) rfl).1,
   (beta_approval_effects ⟨true, some 1⟩ ⟨some 1, some 1, true⟩ ⟨some 42, some 42, true⟩
      ⟨[], [], false, [], some [], []⟩ 42).2 rfl (by decide)⟩

/-- **C10** — Whitelist append idempotence.  `_append_to_whitelist` always
reports success, appending twice equals appending once, and when the id is
already present as a parseable line nothing is appended. -/
theorem whitelist_append_idempotent (file : List String) (uid : Int) :
    (append_to_whitelist file uid).2 = true
  ∧ append_to_whitelist (append_to_whitelist file uid).1 uid
      = append_to_whitelist file uid
  ∧ (uid ∈ loadSeen file [] → append_to_whitelist file uid = (file, true)) := by
  refine ⟨?_, ?_, ?_⟩
  · unfold append_to_whitelist
    split <;> rfl
  · by_cases hmem : uid ∈ loadSeen file []
    · have h1 : append_to_whitelist file uid = (file, true) := by
        unfold append_to_whitelist
        rw [if_pos hmem]
      rw [h1]
      exact h1
    · have h1 : append_to_whitelist file uid = (file ++ [ toString uid ], true) := by
        unfold append_to_whitelist
        rw [if_neg hmem]
      have hmem2 : uid ∈ loadSeen (file ++ [ toString uid ]) [] :=
        mem_loadSeen.mpr (Or.inr ⟨toString uid, List.mem_append_right _ (by simp),
          parsePyInt_toString uid⟩)
      rw [h1]
      show append_to_whitelist (file ++ [ toString uid ]) uid = (file ++ [ toString uid ], true)
      unfold append_to_whitelist
      rw [if_pos hmem2]
  · intro h
    unfold append_to_whitelist
    rw [if_pos h]

/-- Witness for C10: appending 42 to a file already holding the line
`"42"` changes nothing and reports success. -/
theorem whitelist_append_idempotent_witness :
    append_to_whitelist [ "42" ] 42 = ([ "42" ], true) :=
  (whitelist_append_idempotent [ "42" ] 42).2.2 (by decide)

/-! ### User-facing error classifier (`_format_error_for_user`,
`src/bot/handlers.py`) -/

def msgPlaylist : String :=
  "Плейлисты пока не поддерживаются. Пришлите ссылку на конкретное видео."
def msgBadLink : String :=
  "Не похоже на корректную ссылку YouTube. Проверьте URL и попробуйте снова."
def msgAuth : String :=
  "Видео требует авторизацию. Попробуйте другое видео или пришлите публичную ссылку."
def msgAge : String :=
  "Это видео с возрастными ограничениями. Нужен доступ к аккаунту."
def msgGeo : String :=
  "Видео недоступно в вашем регионе."
def msgLive : String :=
  "Это прямая трансляция. Попробуйте после окончания эфира."
def msgNet : String :=
  "Проблемы с сетью. Попробуйте снова чуть позже."
def msgGeneric : String :=
  "Не удалось обработать ссылку. Проверьте, что видео доступно, и попробуйте снова."

def errorMessages : List String :=
  [ msgPlaylist, msgBadLink, msgAuth, msgAge, msgGeo, msgLive, msgNet, msgGeneric ]

def playlistHit (n : String) : Bool := pyContains n "playlist"
def badLinkHit (n : String) : Bool :=
  [ "invalid url", "unsupported url", "no video found", "invalid" ].any (pyContains n)
def authHit (n : String) : Bool :=
  [ "private", "login_required", "sign in", "cookies" ].any (pyContains n)
def ageHit (n : String) : Bool :=
  [ "age restricted", "confirm your age" ].any (pyContains n)
def geoHit (n : String) : Bool :=
  [ "not available in your country", "geo-blocked", "geo blocked" ].any (pyContains n)
def liveHit (n : String) : Bool :=
  [ "live stream", "livestream", "is live" ].any (pyContains n)
def netHit (n : String) : Bool :=
  [ "timeout", "connection", "network", "unable to download" ].any (pyContains n)

/-- The marker table of `_format_error_for_user`, applied to the
lower-cased error text. -/
def classify_error (normalized : String) : String :=
  if playlistHit normalized then msgPlaylist
  else if badLinkHit normalized then msgBadLink
  else if authHit normalized then msgAuth
  else if ageHit normalized then msgAge
  else if geoHit normalized then msgGeo
  else if liveHit normalized then msgLive
  else if netHit normalized then msgNet
  else msgGeneric

/-- `_format_error_for_user`. -/
def format_error_for_user (error_text : String) : String :=
  classify_error (pyLower error_text)

/-- **C9 counterexample** — the claim says any error text containing
"geo" maps to the region-blocked message, but the code only matches
"not available in your country" / "geo-blocked" / "geo blocked": the
error text `"geo"` is classified as the generic failure message. -/
theorem error_classifier_geo_counterexample :
    pyContains (pyLower "geo") "geo" = true
  ∧ format_error_for_user "geo" = msgGeneric
  ∧ msgGeneric ≠ msgGeo := by
  refine ⟨by decide, ?_, by decide⟩
  decide

/-- **C9 (amended)** — Error classification totality and
table-conformance.  Every error text maps to one of the eight fixed
classifier messages (never echoing the internal error); any text
containing "playlist" maps to the unsupported-playlist message; when no
earlier rule fires, the region-blocked message is produced exactly for
the markers "not available in your country"/"geo-blocked"/"geo blocked",
and the live-stream message exactly for "live stream"/"livestream"/"is
live"; text matching no marker maps to the generic failure message. -/
theorem error_classifier_table (e : String) :
    format_error_for_user e ∈ errorMessages
  ∧ (playlistHit (pyLower e) = true → format_error_for_user e = msgPlaylist)
  ∧ (playlistHit (pyLower e) = false → badLinkHit (pyLower e) = false →
     authHit (pyLower e) = false → ageHit (pyLower e) = false →
     geoHit (pyLower e) = true → format_error_for_user e = msgGeo)
  ∧ (playlistHit (pyLower e) = false → badLinkHit (pyLower e) = false →
     authHit (pyLower e) = false → ageHit (pyLower e) = false →
     geoHit (pyLower e) = false → liveHit (pyLower e) = true →
     format_error_for_user e = msgLive)
  ∧ (playlistHit (pyLower e) = false → badLinkHit (pyLower e) = false →
     authHit (pyLower e) = false → ageHit (pyLower e) = false →
     geoHit (pyLower e) = false → liveHit (pyLower e) = false →
     netHit (pyLower e) = false → format_error_for_user e = msgGeneric) := by
  unfold format_error_for_user
  refine ⟨?_, ?_, ?_, ?_, ?_⟩
  · unfold classify_error
    repeat' split
    all_goals simp [errorMessages]
  · intro h
    unfold classify_error
    rw [if_pos h]
  · intro h1 h2 h3 h4 h5
    unfold classify_error
    rw [if_neg (by simp [h1]), if_neg (by simp [h2]), if_neg (by simp [h3]),
      if_neg (by simp [h4]), if_pos h5]
  · intro h1 h2 h3 h4 h5 h6
    unfold classify_error
    rw [if_neg (by simp [h1]), if_neg (by simp [h2]), if_neg (by simp [h3]),
      if_neg (by simp [h4]), if_neg (by simp [h5]), if_pos h6]
  · intro h1 h2 h3 h4 h5 h6 h7
    unfold classify_error
    rw [if_neg (by simp [h1]), if_neg (by simp [h2]), if_neg (by simp [h3]),
      if_neg (by simp [h4]), if_neg (by simp [h5]), if_neg (by simp [h6]),
      if_neg (by simp [h7])]

/-- Witness for C9: the playlist, geo-marker, live-marker and
no-marker rows of the table at concrete error texts. -/
theorem error_classifier_table_witness :
    format_error_for_user "Playlist detected" = msgPlaylist
  ∧ format_error_for_user "This video is geo-blocked" = msgGeo
  ∧ format_error_for_user "it is live now" = msgLive
  ∧ format_error_for_user "boom" = msgGeneric :=
  ⟨(error_classifier_table "Playlist detected").2.1 (by decide),
   (error_classifier_table "This video is geo-blocked").2.2.1
     (by decide) (by decide) (by decide) (by decide) (by decide),
   (error_classifier_table "it is live now").2.2.2.1
     (by decide) (by decide) (by decide) (by decide) (by decide) (by decide),
   (error_classifier_table "boom").2.2.2.2
     (by decide) (by decide) (by decide) (by decide) (by decide) (by decide) (by decide)⟩

/-! ### Format ranker (`_pick_best_by_quality` / `list_formats`,
`src/bot/service.py`)

A format record is one JSON row from the discovery tool; absent keys are
`none`.  `list_format_options` is the pure option-building tail of
`list_formats` (everything after the JSON has been parsed and the
playlist/no-formats failures ruled out). -/

structure Fmt where
  format_id : Option String
  height : Option Nat
  fps : Option ℚ
  vcodec : Option String
  acodec : Option String
  ext : Option String
  filesize : Option ℚ
  filesize_approx : Option ℚ
  tbr : Option ℚ
  abr : Option ℚ
deriving DecidableEq

/-- `f.get("acodec") not in (None, "none")`. -/
def fmtHasAudio (f : Fmt) : Bool :=
  !(f.acodec = none || f.acodec = some "none")

/-- `f.get("vcodec") not in (None, "none")`. -/
def isVideoFmt (f : Fmt) : Bool :=
  !(f.vcodec = none || f.vcodec = some "none")

/-- `f.get("vcodec") == "none" and f.get("acodec") not in (None, "none")`. -/
def isAudioFmt (f : Fmt) : Bool :=
  f.vcodec = some "none" && fmtHasAudio f

/-- Python `x or 0` on an optional number. -/
def pyOrZero (a : Option ℚ) : ℚ :=
  if pyTruthyNum a then a.getD 0 else 0

/-- `_score`: the lexicographic tie-break key of `_pick_best_by_quality`. -/
def score (prefer_progressive : Bool) (f : Fmt) : Nat × ℚ × ℚ × ℚ :=
  ((if prefer_progressive && fmtHasAudio f then 1 else 0),
   pyOrNum0 f.filesize f.filesize_approx,
   pyOrZero f.tbr,
   pyOrZero f.abr)

/-- Python tuple `<` on the score, as a boolean. -/
def scoreLt (a b : Nat × ℚ × ℚ × ℚ) : Bool :=
  decide (a.1 < b.1)
  || (decide (a.1 = b.1)
      && (decide (a.2.1 < b.2.1)
          || (decide (a.2.1 = b.2.1)
              && (decide (a.2.2.1 < b.2.2.1)
                  || (decide (a.2.2.1 = b.2.2.1) && decide (a.2.2.2 < b.2.2.2))))))

/-- `_pick_best_by_quality`: keep records with a truthy `format_id`,
return the first score-maximal one (Python `max` keeps the earliest
among ties). -/
def pick_best_by_quality (formats : List Fmt) (prefer_progressive : Bool) : Option Fmt :=
  match formats.filter (fun f => pyTruthyStr f.format_id) with
  | [] => none
  | c :: rest =>
    some (rest.foldl (fun best f =>
      if scoreLt (score prefer_progressive best) (score prefer_progressive f) then f
      else best) c)

/-- `int(value)` on the `filesize or filesize_approx` field
(`_format_size_bytes`). -/
def format_size_bytes (value : Option ℚ) : Option Int :=
  match value with
  | none => none
  | some v => some (pyTrunc v)

/-- `f"{height}p"` plus the `" {fps}fps"` suffix for fps ≥ 50. -/
def videoLabel (height : Nat) (fps : Option ℚ) : String :=
  match fps with
  | none => toString height ++ "p"
  | some fv =>
    if fv ≠ 0 then
      (if 50 ≤ pyRound fv then
        toString height ++ "p" ++ " " ++ toString (pyRound fv) ++ "fps"
       else toString height ++ "p")
    else toString height ++ "p"

/-- `(f" ({ext})" if ext else "")`. -/
def extSuffix (ext : Option String) : String :=
  if pyTruthyStr ext then " (" ++ ext.getD "" ++ ")" else ""

/-- `str(best.get("format_id"))`. -/
def pyStrOfOpt (o : Option String) : String :=
  match o with
  | some s => s
  | none => "None"

/-- One pass of the per-height loop body of `list_formats`: pick the best
candidate at this exact height and build its `FormatOption`. -/
def buildVideoOption (video_formats : List Fmt) (height : Nat) : Option FormatOption :=
  match pick_best_by_quality (video_formats.filter (fun f => f.height = some height)) true with
  | none => none
  | some best =>
    some { format_id := pyStrOfOpt best.format_id,
           label := videoLabel height best.fps,
           quality_label := videoLabel height best.fps ++ extSuffix best.ext,
           is_audio_only := false,
           format_has_audio := fmtHasAudio best,
           ext := best.ext,
           filesize := format_size_bytes (pyOrNum best.filesize best.filesize_approx) }

/-- `"Аудио"` plus the approximate-bitrate suffix. -/
def audioLabel (abr : Option ℚ) : String :=
  match abr with
  | none => "Аудио"
  | some v => if v ≠ 0 then "Аудио" ++ " " ++ toString (pyRound v) ++ "k" else "Аудио"

/-- The single audio-only option of `list_formats`. -/
def audioOption (best : Fmt) : FormatOption :=
  { format_id := pyStrOfOpt best.format_id,
    label := audioLabel (pyOrNum best.abr best.tbr),
    quality_label := "Аудио" ++ extSuffix best.ext,
    is_audio_only := true,
    format_has_audio := true,
    ext := best.ext,
    filesize := format_size_bytes (pyOrNum best.filesize best.filesize_approx) }

/-- `sorted({h for f in video_formats if f.get("height")}, reverse=True)`:
the distinct truthy heights, descending. -/
def videoHeights (video_formats : List Fmt) : List Nat :=
  (((video_formats.filterMap (fun f =>
      match f.height with
      | some h => if h ≠ 0 then some h else none
      | none => none)).dedup).insertionSort (· ≤ ·)).reverse

/-- The per-height loop of `list_formats`, with its cap of 8 video
options (append, then break once 8 are collected). -/
def videoLoop (video_formats : List Fmt) : List Nat → List FormatOption → List FormatOption
  | [], options => options
  | height :: rest, options =>
    match buildVideoOption video_formats height with
    | none => videoLoop video_formats rest options
    | some opt =>
      if 8 ≤ options.length + 1 then options ++ [ opt ]
      else videoLoop video_formats rest (options ++ [ opt ])

/-- The option list `list_formats` builds from the parsed format
records: ranked video options (capped at 8) followed by at most one
audio-only option. -/
def list_format_options (formats : List Fmt) : List FormatOption :=
  (if formats.filter isVideoFmt ≠ [] then
    videoLoop (formats.filter isVideoFmt)
      (videoHeights (formats.filter isVideoFmt)) []
   else []) ++
  (if formats.filter isAudioFmt ≠ [] then
    (match pick_best_by_quality (formats.filter isAudioFmt) false with
     | some best_audio => [ audioOption best_audio ]
     | none => [])
   else [])

/-- The score viewed in the lexicographic order that Python tuple
comparison implements. -/
def scoreLex (s : Nat × ℚ × ℚ × ℚ) : Lex (ℕ × Lex (ℚ × Lex (ℚ × ℚ))) :=
  toLex (s.1, toLex (s.2.1, toLex (s.2.2.1, s.2.2.2)))

theorem scoreLt_iff (a b : Nat × ℚ × ℚ × ℚ) :
    scoreLt a b = true ↔ scoreLex a < scoreLex b := by
  unfold scoreLt scoreLex
  simp only [Prod.Lex.lt_iff, Bool.or_eq_true, Bool.and_eq_true, decide_eq_true_eq]

theorem scoreLt_false_iff (a b : Nat × ℚ × ℚ × ℚ) :
    scoreLt a b = false ↔ scoreLex b ≤ scoreLex a := by
  rw [← not_lt, ← scoreLt_iff]
  cases scoreLt a b <;> simp

theorem foldl_best_ge (pp : Bool) :
    ∀ (rest : List Fmt) (c x : Fmt), x ∈ c :: rest →
      scoreLex (score pp x) ≤ scoreLex (score pp
        (rest.foldl (fun best f =>
          if scoreLt (score pp best) (score pp f) then f else best) c)) := by
  intro rest
  induction rest with
  | nil =>
    intro c x hx
    rcases List.mem_cons.mp hx with he | h0
    · subst he; exact le_refl _
    · simp at h0
  | cons f t ih =>
    intro c x hx
    simp only [List.foldl_cons]
    have hcle : scoreLex (score pp c) ≤ scoreLex (score pp
        (if scoreLt (score pp c) (score pp f) then f else c)) := by
      by_cases hlt : scoreLt (score pp c) (score pp f) = true
      · rw [if_pos hlt]
        exact le_of_lt ((scoreLt_iff _ _).mp hlt)
      · rw [if_neg hlt]
    have hfle : scoreLex (score pp f) ≤ scoreLex (score pp
        (if scoreLt (score pp c) (score pp f) then f else c)) := by
      by_cases hlt : scoreLt (score pp c) (score pp f) = true
      · rw [if_pos hlt]
      · rw [if_neg hlt]
        exact (scoreLt_false_iff _ _).mp (Bool.eq_false_iff.mpr hlt)
    rcases List.mem_cons.mp hx with he | hrest
    · subst he
      exact le_trans hcle (ih _ _ (List.mem_cons_self _ _))
    · rcases List.mem_cons.mp hrest with he2 | ht2
      · subst he2
        exact le_trans hfle (ih _ _ (List.mem_cons_self _ _))
      · exact ih _ x (List.mem_cons_of_mem _ ht2)

theorem pick_best_isSome {formats : List Fmt} {cand : Fmt} (pp : Bool)
    (hc : cand ∈ formats) (hct : pyTruthyStr cand.format_id = true) :
    ∃ best, pick_best_by_quality formats pp = some best := by
  unfold pick_best_by_quality
  cases hfl : formats.filter (fun f => pyTruthyStr f.format_id) with
  | nil =>
    exfalso
    have hm : cand ∈ formats.filter (fun f => pyTruthyStr f.format_id) :=
      List.mem_filter.mpr ⟨hc, hct⟩
    rw [hfl] at hm
    simp at hm
  | cons c rest => exact ⟨_, rfl⟩

theorem pick_best_ge {formats : List Fmt} {pp : Bool} {best : Fmt}
    (h : pick_best_by_quality formats pp = some best) :
    ∀ f ∈ formats, pyTruthyStr f.format_id = true →
      scoreLex (score pp f) ≤ scoreLex (score pp best) := by
  intro f hf hft
  have hmem : f ∈ formats.filter (fun g => pyTruthyStr g.format_id) :=
    List.mem_filter.mpr ⟨hf, hft⟩
  unfold pick_best_by_quality at h
  cases hfl : formats.filter (fun g => pyTruthyStr g.format_id) with
  | nil =>
    rw [hfl] at hmem
    simp at hmem
  | cons c rest =>
    rw [hfl] at h hmem
    have hb : rest.foldl (fun best f =>
        if scoreLt (score pp best) (score pp f) then f else best) c = best := by
      injection h
    rw [← hb]
    exact foldl_best_ge pp rest c f hmem

theorem pick_best_has_audio {formats : List Fmt} {best cand : Fmt}
    (hc : cand ∈ formats) (hct : pyTruthyStr cand.format_id = true)
    (hca : fmtHasAudio cand = true)
    (h : pick_best_by_quality formats true = some best) :
    fmtHasAudio best = true := by
  have hle := pick_best_ge h cand hc hct
  by_contra hna
  simp only [Bool.not_eq_true] at hna
  have h1 : (score true cand).1 = 1 := by simp [score, hca]
  have h2 : (score true best).1 = 0 := by simp [score, hna]
  have hfst : (score true cand).1 ≤ (score true best).1 := by
    rcases (Prod.Lex.le_iff _ _).mp hle with hlt | ⟨heq, _⟩
    · exact le_of_lt hlt
    · exact le_of_eq heq
  omega

theorem videoLoop_eq_filterMap (vf : List Fmt) :
    ∀ (hs : List Nat) (acc : List FormatOption),
      acc.length + hs.length ≤ 8 →
      videoLoop vf hs acc = acc ++ hs.filterMap (buildVideoOption vf) := by
  intro hs
  induction hs with
  | nil => intro acc _; simp [videoLoop]
  | cons h t ih =>
    intro acc hlen
    unfold videoLoop
    cases hb : buildVideoOption vf h with
    | none =>
      rw [List.filterMap_cons_none hb]
      exact ih acc (by simp only [List.length_cons] at hlen; omega)
    | some opt =>
      rw [List.filterMap_cons_some hb]
      show (if 8 ≤ acc.length + 1 then acc ++ [ opt ]
            else videoLoop vf t (acc ++ [ opt ]))
          = acc ++ opt :: List.filterMap (buildVideoOption vf) t
      by_cases h8 : 8 ≤ acc.length + 1
      · rw [if_pos h8]
        have ht : t = [] := by
          cases t with
          | nil => rfl
          | cons a b =>
            exfalso
            simp only [List.length_cons] at hlen
            omega
        subst ht
        simp
      · rw [if_neg h8]
        rw [ih (acc ++ [ opt ]) (by simp at hlen ⊢; omega)]
        simp

theorem filterMap_order (f : Nat → Option FormatOption) :
    ∀ (l : List Nat) (a b : Nat) (x y : FormatOption),
      l.Pairwise (· > ·) → a ∈ l → b ∈ l → b < a →
      f a = some x → f b = some y →
      ∃ i j, i < j ∧ (l.filterMap f).get? i = some x
        ∧ (l.filterMap f).get? j = some y := by
  intro l
  induction l with
  | nil =>
    intro a b x y _ ha
    simp at ha
  | cons c t ih =>
    intro a b x y hpw ha hb hba hfa hfb
    have hpw_t : t.Pairwise (· > ·) := (List.pairwise_cons.mp hpw).2
    have hgt : ∀ z ∈ t, c > z := (List.pairwise_cons.mp hpw).1
    by_cases hca : c = a
    · subst hca
      have hbt : b ∈ t := by
        rcases List.mem_cons.mp hb with he | ht2
        · exfalso; omega
        · exact ht2
      rw [List.filterMap_cons_some hfa]
      have hy : y ∈ t.filterMap f := List.mem_filterMap.mpr ⟨b, hbt, hfb⟩
      obtain ⟨j, hj⟩ := List.mem_iff_get?.mp hy
      exact ⟨0, j + 1, Nat.succ_pos j, rfl, by simpa using hj⟩
    · have hat : a ∈ t := by
        rcases List.mem_cons.mp ha with he | h2
        · exact absurd he.symm hca
        · exact h2
      have hbt : b ∈ t := by
        rcases List.mem_cons.mp hb with he | h2
        · exfalso
          subst he
          have := hgt a hat
          omega
        · exact h2
      obtain ⟨i, j, hij, hgi, hgj⟩ := ih a b x y hpw_t hat hbt hba hfa hfb
      cases hc : f c with
      | none =>
        rw [List.filterMap_cons_none hc]
        exact ⟨i, j, hij, hgi, hgj⟩
      | some z =>
        rw [List.filterMap_cons_some hc]
        exact ⟨i + 1, j + 1, by omega, by simpa using hgi, by simpa using hgj⟩

theorem videoHeights_sorted (vf : List Fmt) : (videoHeights vf).Pairwise (· > ·) := by
  unfold videoHeights
  have hs : List.Sorted (· ≤ ·) (((vf.filterMap (fun f =>
      match f.height with
      | some h => if h ≠ 0 then some h else none
      | none => none)).dedup).insertionSort (· ≤ ·)) :=
    List.sorted_insertionSort _ _
  have hnd : (((vf.filterMap (fun f =>
      match f.height with
      | some h => if h ≠ 0 then some h else none
      | none => none)).dedup).insertionSort (· ≤ ·)).Nodup :=
    ((List.perm_insertionSort _ _).nodup_iff).mpr (List.nodup_dedup _)
  have hrev_pw := List.pairwise_reverse.mpr hs
  have hrev_nd := List.nodup_reverse.mpr hnd
  exact (hrev_pw.and hrev_nd).imp
    (fun hab => lt_of_le_of_ne hab.1 (Ne.symm hab.2))

theorem mem_videoHeights {vf : List Fmt} {f : Fmt} {h : Nat} (hf : f ∈ vf)
    (hh : f.height = some h) (hz : h ≠ 0) : h ∈ videoHeights vf := by
  unfold videoHeights
  rw [List.mem_reverse, (List.perm_insertionSort _ _).mem_iff, List.mem_dedup]
  exact List.mem_filterMap.mpr ⟨f, hf, by rw [hh]; simp [hz]⟩

theorem buildVideoOption_some {vf : List Fmt} {h : Nat} {cand : Fmt}
    (hc : cand ∈ vf) (hh : cand.height = some h)
    (ht : pyTruthyStr cand.format_id = true) :
    ∃ opt, buildVideoOption vf h = some opt := by
  unfold buildVideoOption
  have hmem : cand ∈ vf.filter (fun f => f.height = some h) :=
    List.mem_filter.mpr ⟨hc, by simp [hh]⟩
  obtain ⟨best, hbest⟩ := pick_best_isSome true hmem ht
  rw [hbest]
  exact ⟨_, rfl⟩

theorem buildVideoOption_audio {vf : List Fmt} {h : Nat} {cand : Fmt}
    {opt : FormatOption}
    (hc : cand ∈ vf) (hh : cand.height = some h)
    (ht : pyTruthyStr cand.format_id = true) (ha : fmtHasAudio cand = true)
    (hbuild : buildVideoOption vf h = some opt) :
    opt.format_has_audio = true := by
  unfold buildVideoOption at hbuild
  cases hp : pick_best_by_quality (vf.filter (fun f => f.height = some h)) true with
  | none =>
    rw [hp] at hbuild
    cases hbuild
  | some best =>
    rw [hp] at hbuild
    have hmem : cand ∈ vf.filter (fun f => f.height = some h) :=
      List.mem_filter.mpr ⟨hc, by simp [hh]⟩
    have hba : fmtHasAudio best = true := pick_best_has_audio hmem ht ha hp
    have hopt : opt = { format_id := pyStrOfOpt best.format_id,
                        label := videoLabel h best.fps,
                        quality_label := videoLabel h best.fps ++ extSuffix best.ext,
                        is_audio_only := false,
                        format_has_audio := fmtHasAudio best,
                        ext := best.ext,
                        filesize := format_size_bytes
                          (pyOrNum best.filesize best.filesize_approx) } := by
      injection hbuild with hb
      exact hb.symm
    rw [hopt]
    exact hba

/-- A progressive (video+audio) test record at a given height. -/
def capFmt (id : String) (h : Nat) : Fmt :=
  ⟨some id, some h, none, some "avc1", some "mp4a", some "mp4",
   none, none, none, none⟩

/-- Nine distinct video heights with 720 the lowest: the cap drops 720p. -/
def rankerCapFormats : List Fmt :=
  [ capFmt "f1" 4320, capFmt "f2" 2160, capFmt "f3" 1440, capFmt "f4" 1080,
    capFmt "f5" 1008, capFmt "f6" 936, capFmt "f7" 864, capFmt "f8" 792,
    capFmt "f9" 720 ]

/-- **C5 counterexample** — the claim as stated ("for every format-record
list containing both a 1080p and a 720p progressive candidate, the
returned option list places the 1080p option before the 720p option")
fails on the code: with nine distinct video heights of which 720 is the
lowest, the per-height loop appends its eighth option and breaks, so the
returned list ends at the 792p option and contains no 720p option at all,
even though a 720p progressive candidate with a usable `format_id` is
present in the input. -/
theorem ranker_cap_counterexample :
    capFmt "f4" 1080 ∈ rankerCapFormats
  ∧ isVideoFmt (capFmt "f4" 1080) = true
  ∧ (capFmt "f4" 1080).height = some 1080
  ∧ fmtHasAudio (capFmt "f4" 1080) = true
  ∧ pyTruthyStr (capFmt "f4" 1080).format_id = true
  ∧ capFmt "f9" 720 ∈ rankerCapFormats
  ∧ isVideoFmt (capFmt "f9" 720) = true
  ∧ (capFmt "f9" 720).height = some 720
  ∧ fmtHasAudio (capFmt "f9" 720) = true
  ∧ pyTruthyStr (capFmt "f9" 720).format_id = true
  ∧ (list_format_options rankerCapFormats).map (fun o => o.label)
      = [ "4320p", "2160p", "1440p", "1080p", "1008p", "936p", "864p", "792p" ]
  ∧ "720p" ∉ (list_format_options rankerCapFormats).map (fun o => o.label) := by
  decide

/-- **C5 (amended)** — Ranker ordering and progressive preference, within
the cap.  When the format records contain a 1080p and a 720p progressive
candidate (both with a usable `format_id`) and at most 8 distinct video
heights occur — the video option list is capped at 8 entries, highest
resolutions first, so beyond that the lowest heights are dropped — the
returned option list places the per-height 1080p option strictly before
the 720p option, and the 1080p option carries `format_has_audio = true`
(regardless of any larger or higher-bitrate audio-less 1080p candidates,
since the has-audio bonus is the top lexicographic component). -/
theorem ranker_order_and_progressive (formats : List Fmt) (f1080 f720 : Fmt) :
    f1080 ∈ formats → isVideoFmt f1080 = true → f1080.height = some 1080 →
    pyTruthyStr f1080.format_id = true → fmtHasAudio f1080 = true →
    f720 ∈ formats → isVideoFmt f720 = true → f720.height = some 720 →
    pyTruthyStr f720.format_id = true →
    (videoHeights (formats.filter isVideoFmt)).length ≤ 8 →
    ∃ i j o1080 o720,
      i < j
      ∧ (list_format_options formats).get? i = some o1080
      ∧ (list_format_options formats).get? j = some o720
      ∧ buildVideoOption (formats.filter isVideoFmt) 1080 = some o1080
      ∧ buildVideoOption (formats.filter isVideoFmt) 720 = some o720
      ∧ o1080.format_has_audio = true := by
  intro h1m h1v h1h h1t h1a h2m h2v h2h h2t hlen
  have h1vf : f1080 ∈ formats.filter isVideoFmt := List.mem_filter.mpr ⟨h1m, h1v⟩
  have h2vf : f720 ∈ formats.filter isVideoFmt := List.mem_filter.mpr ⟨h2m, h2v⟩
  obtain ⟨o1080, hb1⟩ := buildVideoOption_some h1vf h1h h1t
  obtain ⟨o720, hb2⟩ := buildVideoOption_some h2vf h2h h2t
  have hhm1 : 1080 ∈ videoHeights (formats.filter isVideoFmt) :=
    mem_videoHeights h1vf h1h (by decide)
  have hhm2 : 720 ∈ videoHeights (formats.filter isVideoFmt) :=
    mem_videoHeights h2vf h2h (by decide)
  obtain ⟨i, j, hij, hgi, hgj⟩ :=
    filterMap_order (buildVideoOption (formats.filter isVideoFmt))
      (videoHeights (formats.filter isVideoFmt)) 1080 720 o1080 o720
      (videoHeights_sorted _) hhm1 hhm2 (by omega) hb1 hb2
  have hvne : formats.filter isVideoFmt ≠ [] := by
    intro he
    rw [he] at h1vf
    simp at h1vf
  have hloop : videoLoop (formats.filter isVideoFmt)
      (videoHeights (formats.filter isVideoFmt)) []
      = (videoHeights (formats.filter isVideoFmt)).filterMap
          (buildVideoOption (formats.filter isVideoFmt)) := by
    have := videoLoop_eq_filterMap (formats.filter isVideoFmt)
      (videoHeights (formats.filter isVideoFmt)) [] (by simpa using hlen)
    simpa using this
  have hopts : list_format_options formats
      = (videoHeights (formats.filter isVideoFmt)).filterMap
          (buildVideoOption (formats.filter isVideoFmt))
        ++ (if formats.filter isAudioFmt ≠ [] then
              (match pick_best_by_quality (formats.filter isAudioFmt) false with
               | some best_audio => [ audioOption best_audio ]
               | none => [])
            else []) := by
    unfold list_format_options
    rw [if_pos hvne, hloop]
  have hilt : i < ((videoHeights (formats.filter isVideoFmt)).filterMap
      (buildVideoOption (formats.filter isVideoFmt))).length := by
    rcases List.get?_eq_some.mp hgi with ⟨hw, _⟩
    exact hw
  have hjlt : j < ((videoHeights (formats.filter isVideoFmt)).filterMap
      (buildVideoOption (formats.filter isVideoFmt))).length := by
    rcases List.get?_eq_some.mp hgj with ⟨hw, _⟩
    exact hw
  refine ⟨i, j, o1080, o720, hij, ?_, ?_, hb1, hb2,
    buildVideoOption_audio h1vf h1h h1t h1a hb1⟩
  · rw [hopts, List.get?_append hilt]
    exact hgi
  · rw [hopts, List.get?_append hjlt]
    exact hgj

/-- Witness for C5: two progressive records (1080p and 720p) produce the
1080p option first, marked as carrying audio. -/
theorem ranker_order_witness :
    ∃ i j o1080 o720,
      i < j
      ∧ (list_format_options
          [ ⟨some "137", some 1080, none, some "avc1", some "mp4a", some "mp4",
              none, none, none, none⟩,
            ⟨some "22", some 720, none, some "avc1", some "mp4a", some "mp4",
              none, none, none, none⟩ ]).get? i = some o1080
      ∧ (list_format_options
          [ ⟨some "137", some 1080, none, some "avc1", some "mp4a", some "mp4",
              none, none, none, none⟩,
            ⟨some "22", some 720, none, some "avc1", some "mp4a", some "mp4",
              none, none, none, none⟩ ]).get? j = some o720
      ∧ buildVideoOption
          ([ ⟨some "137", some 1080, none, some "avc1", some "mp4a", some "mp4",
              none, none, none, none⟩,
             ⟨some "22", some 720, none, some "avc1", some "mp4a", some "mp4",
              none, none, none, none⟩ ].filter isVideoFmt) 1080 = some o1080
      ∧ buildVideoOption
          ([ ⟨some "137", some 1080, none, some "avc1", some "mp4a", some "mp4",
              none, none, none, none⟩,
             ⟨some "22", some 720, none, some "avc1", some "mp4a", some "mp4",
              none, none, none, none⟩ ].filter isVideoFmt) 720 = some o720
      ∧ o1080.format_has_audio = true :=
  ranker_order_and_progressive
    [ ⟨some "137", some 1080, none, some "avc1", some "mp4a", some "mp4",
        none, none, none, none⟩,
      ⟨some "22", some 720, none, some "avc1", some "mp4a", some "mp4",
        none, none, none, none⟩ ]
    ⟨some "137", some 1080, none, some "avc1", some "mp4a", some "mp4",
      none, none, none, none⟩
    ⟨some "22", some 720, none, some "avc1", some "mp4a", some "mp4",
      none, none, none, none⟩
    (by decide) (by decide) (by decide) (by decide) (by decide)
    (by decide) (by decide) (by decide) (by decide) (by decide)

end YTSage
